import Mathlib

/-!
Shallow embedding of the capacity-allocation and day-scheduling engine found in
`backend/app/services/capacity_planning_service.py` and
`backend/app/services/ai_service.py`, together with theorems settling the
frozen claims about its natural-language specification.

Modelling conventions:
* Python numbers (floats/ints) are modelled as rationals (`ℚ`).
* Python dictionaries are modelled as ordered association lists with
  unique-key update semantics (`dictGet` / `dictSet` below).
* Python exceptions (`KeyError` on `task['priority']`, `ZeroDivisionError` on
  division) are modelled by `Option`-valued functions returning `none`.
* The mutable `resource.available_capacity` attribute is modelled by passing an
  explicit list of remaining capacities, indexed by the resource's position in
  the input resource list (Python object identity = list position).
-/

namespace Spec2Proof

/-! ## Python dictionaries as ordered association lists -/

def dictGet {α : Type} (m : List (String × α)) (k : String) : Option α :=
  (m.find? (fun p => p.1 == k)).map (fun p => p.2)

def dictHasKey {α : Type} (m : List (String × α)) (k : String) : Bool :=
  m.any (fun p => p.1 == k)

def dictSet {α : Type} (m : List (String × α)) (k : String) (v : α) : List (String × α) :=
  if dictHasKey m k then m.map (fun p => if p.1 == k then (k, v) else p)
  else m ++ [(k, v)]

/-! ## Day-scheduling engine data model (`ai_service.py`) -/

/-- A task dictionary as consumed by `_fallback_organization` and
`_validate_and_enhance_schedule`.  `priority` is `Option` because the Python
dict may lack the key: the sort uses `task.get('priority', 'Medium')` while
segment construction uses `task['priority']` (a `KeyError` when absent). -/
structure Task where
  key : String
  summary : String
  priority : Option String
  due_date : Option String
  remaining_hours : ℚ
deriving DecidableEq

/-- A raw task dictionary as given to `organize_tasks`, before it builds the
normalized `task_data` entries (fields unused by the engine are omitted). -/
structure RawTask where
  key : Option String
  summary : Option String
  priority : Option String
  remaining_estimate_hours : Option ℚ
  due_date : Option String
deriving DecidableEq

/-- The `task_data` normalization performed at the top of `organize_tasks`:
every field is defaulted, in particular `priority` becomes `'Medium'` when the
raw dict has no priority and `remaining_hours` is
`task.get('remaining_estimate_hours', 0) or 0`. -/
def organizeTaskData (t : RawTask) : Task :=
  { key := t.key.getD ""
    summary := t.summary.getD ""
    priority := some (t.priority.getD "Medium")
    due_date := some (t.due_date.getD "")
    remaining_hours := t.remaining_estimate_hours.getD 0 }

/-- A scheduled segment dictionary appended to `schedule[day]`. -/
structure Segment where
  task_key : String
  task_summary : String
  allocated_hours : ℚ
  priority : String
  reason : String
deriving DecidableEq

/-- An entry of `unassigned_tasks`.  The Python code stores the unsatisfied
remainder inside the reason string
(`f'... (still needs {remaining_hours}h)'`); `still_needs` models that
reported number. -/
structure UnassignedEntry where
  task_key : String
  still_needs : ℚ
deriving DecidableEq

/-- The `schedule` dictionary: day name to ordered list of segments. -/
abbrev Sched := List (String × List Segment)

/-- The `available_hours_by_day` dictionary. -/
abbrev HoursByDay := List (String × ℚ)

/-- `available_hours_by_day.get(day, work_hours_per_day)`. -/
def hbdGet (hbd : HoursByDay) (whpd : ℚ) (day : String) : ℚ :=
  (dictGet hbd day).getD whpd

/-- The `priority_order` dictionary `{'High': 3, 'Medium': 2, 'Low': 1}`. -/
def priority_order (p : String) : Option ℚ :=
  if p == "High" then some 3
  else if p == "Medium" then some 2
  else if p == "Low" then some 1
  else none

/-- Sort-key ordinal `priority_order.get(x.get('priority', 'Medium'), 1)`. -/
def sortOrdinal (p : Option String) : ℚ :=
  (priority_order (p.getD "Medium")).getD 1

/-- The composite sort key `(priority ordinal, due date, remaining hours)`. -/
def taskSortKey (t : Task) : ℚ × String × ℚ :=
  (sortOrdinal t.priority, t.due_date.getD "", t.remaining_hours)

/-- Python string `<`: lexicographic comparison of code points. -/
def charListLt : List Char → List Char → Bool
  | [], [] => false
  | [], _ :: _ => true
  | _ :: _, [] => false
  | c :: cs, d :: ds =>
    decide (c.toNat < d.toNat) || (decide (c.toNat = d.toNat) && charListLt cs ds)

def pyStrLt (a b : String) : Bool :=
  charListLt a.data b.data

/-- Python lexicographic `<` on the composite key tuple. -/
def tkLt (a b : ℚ × String × ℚ) : Bool :=
  decide (a.1 < b.1) ||
    (decide (a.1 = b.1) &&
      (pyStrLt a.2.1 b.2.1 ||
        (decide (a.2.1 = b.2.1) && decide (a.2.2 < b.2.2))))

/-- The stable-descending order used by `sorted(..., key=..., reverse=True)`:
`a` precedes `b` when `a`'s key is not smaller than `b`'s. -/
def taskBefore (a b : Task) : Prop :=
  tkLt (taskSortKey a) (taskSortKey b) = false

instance : DecidableRel taskBefore := fun a b =>
  inferInstanceAs (Decidable (tkLt (taskSortKey a) (taskSortKey b) = false))

/-- `sorted(tasks, key=lambda x: (...), reverse=True)`: a stable descending
sort on the composite key (insertion sort is extensionally equal to Python's
stable sort for the same precedence relation). -/
def sort_tasks (ts : List Task) : List Task :=
  List.insertionSort taskBefore ts

/-- Append a segment to `schedule[day]` (Python `schedule[current_day].append`). -/
def schedAppend (sched : Sched) (day : String) (seg : Segment) : Sched :=
  dictSet sched day (((dictGet sched day).getD []) ++ [seg])

/-- The inner `while remaining_hours > 0 and current_day_idx < len(work_days)`
loop of `_fallback_organization` for a single task.  Returns the final
`(remaining_hours, current_day_idx, current_day_hours, schedule)`; `none`
models the `KeyError` raised by `task['priority']` when the dict has no
priority and a segment is created. -/
def allocTask (wd : List String) (hbd : HoursByDay) (whpd : ℚ) (t : Task)
    (remaining : ℚ) (idx : Nat) (cur : ℚ) (sched : Sched) :
    Option (ℚ × Nat × ℚ × Sched) :=
  if h : 0 < remaining ∧ idx < wd.length then
    let day := wd.get ⟨idx, h.2⟩
    if havail : 0 < hbdGet hbd whpd day - cur then
      match t.priority with
      | none => none
      | some p =>
        let alloc := min remaining (hbdGet hbd whpd day - cur)
        let sched2 := schedAppend sched day
          { task_key := t.key, task_summary := t.summary, allocated_hours := alloc,
            priority := p, reason := "Part of task scheduled in " ++ day }
        if hfull : hbdGet hbd whpd day ≤ cur + alloc then
          allocTask wd hbd whpd t (remaining - alloc) (idx + 1) 0 sched2
        else
          allocTask wd hbd whpd t (remaining - alloc) idx (cur + alloc) sched2
    else
      allocTask wd hbd whpd t remaining (idx + 1) 0 sched
  else
    some (remaining, idx, cur, sched)
termination_by (wd.length - idx) + (if 0 < remaining then 1 else 0)
decreasing_by
  · have h1 := h.1
    have h2 := h.2
    rw [if_pos h1]
    split_ifs <;> omega
  · have h1 := h.1
    have h2 := h.2
    have hfull2 := hfull
    push_neg at hfull2
    have hmr : alloc = remaining ∨ alloc = hbdGet hbd whpd day - cur :=
      min_choice remaining (hbdGet hbd whpd day - cur)
    have hzero : remaining - alloc = 0 := by
      rcases hmr with hm | hm
      · rw [hm]; ring
      · exfalso
        rw [hm] at hfull2
        linarith
    have hx : ¬ 0 < remaining - alloc := by
      rw [hzero]
      exact lt_irrefl 0
    rw [if_neg hx, if_pos h1]
    omega
  · have h1 := h.1
    have h2 := h.2
    rw [if_pos h1]
    omega

/-- The outer `for task in sorted_tasks` loop of `_fallback_organization`,
threading the day cursor, schedule and `unassigned_tasks` across tasks. -/
def fallbackLoop (wd : List String) (hbd : HoursByDay) (whpd : ℚ) :
    List Task → Nat → ℚ → Sched → List UnassignedEntry →
    Option (Sched × List UnassignedEntry)
  | [], _, _, sched, un => some (sched, un)
  | t :: rest, idx, cur, sched, un =>
    match allocTask wd hbd whpd t t.remaining_hours idx cur sched with
    | none => none
    | some (rem, idx2, cur2, sched2) =>
      fallbackLoop wd hbd whpd rest idx2 cur2 sched2
        (if 0 < rem then un ++ [{ task_key := t.key, still_needs := rem }] else un)

/-- `schedule = {day: [] for day in work_days}`. -/
def initSched (wd : List String) : Sched :=
  wd.foldl (fun m d => dictSet m d []) []

/-- Floor of a rational (computable form of `Int.floor`). -/
def ratFloor (q : ℚ) : ℤ :=
  Int.fdiv q.num q.den

/-- Python `round(x, 1)` on exact rationals (round half to even). -/
def pyRound1 (q : ℚ) : ℚ :=
  let x := 10 * q
  if x - ratFloor x = 1 / 2 then
    if ratFloor x % 2 = 0 then ((ratFloor x : ℚ) / 10)
    else (((ratFloor x : ℚ) + 1) / 10)
  else ((ratFloor (x + 1 / 2) : ℚ) / 10)

/-- The dictionary returned by `_fallback_organization` (the fixed
recommendation strings of its summary are omitted; every numeric field is
kept). -/
structure ScheduleResult where
  total_tasks : Nat
  total_hours : ℚ
  available_hours : ℚ
  total_allocated_hours : ℚ
  utilization_percentage : ℚ
  schedule : Sched
  unassigned_tasks : List UnassignedEntry
deriving DecidableEq

/-- `_fallback_organization(tasks, work_hours_per_day, work_days,
available_hours_by_day)`.  `none` models the `ZeroDivisionError` raised when
`sum(available_hours_by_day.values()) == 0` (this function, unlike its sibling
`_validate_and_enhance_schedule`, has no guard on the denominator), or the
`KeyError` from `task['priority']`. -/
def fallback_organization (tasks : List Task) (whpd : ℚ) (wd : List String)
    (hbd : HoursByDay) : Option ScheduleResult :=
  match fallbackLoop wd hbd whpd (sort_tasks tasks) 0 0 (initSched wd) [] with
  | none => none
  | some (sched, un) =>
    let total_allocated := (sched.map (fun p => (p.2.map (fun s => s.allocated_hours)).sum)).sum
    let total_available := (hbd.map (fun p => p.2)).sum
    if total_available = 0 then none
    else
      some { total_tasks := tasks.length
             total_hours := (tasks.map (fun t => t.remaining_hours)).sum
             available_hours := total_available
             total_allocated_hours := total_allocated
             utilization_percentage := pyRound1 (total_allocated / total_available * 100)
             schedule := sched
             unassigned_tasks := un }

/-- An advisory proposal (the parsed AI response) as consumed by
`_validate_and_enhance_schedule` after the missing-key defaults are applied. -/
structure Proposal where
  schedule : Sched
  unassigned_tasks : List UnassignedEntry
deriving DecidableEq

/-- The dictionary returned by `_validate_and_enhance_schedule` (the summary
fields it writes, plus the untouched schedule/unassigned data). -/
structure ValidatedResult where
  schedule : Sched
  unassigned_tasks : List UnassignedEntry
  total_allocated_hours : ℚ
  utilization_percentage : ℚ
deriving DecidableEq

/-- The per-day redistribution loop of `_validate_and_enhance_schedule`: walk
the day's tasks in order, allocating `min(remaining_hours, cap - used)` while
the day still has room (`if available_hours_today > 0`).  `none` models the
`KeyError` from `task['priority']`. -/
def repairPack (cap : ℚ) : List Task → ℚ → Option (List Segment)
  | [], _ => some []
  | t :: rest, cur =>
    if 0 < cap - cur then
      match t.priority with
      | none => none
      | some p =>
        match repairPack cap rest (cur + min t.remaining_hours (cap - cur)) with
        | none => none
        | some segs =>
          some ({ task_key := t.key, task_summary := t.summary,
                  allocated_hours := min t.remaining_hours (cap - cur),
                  priority := p, reason := "Redistributed" } :: segs)
    else repairPack cap rest cur

/-- The `day_tasks` collection: input tasks (in input order) whose key occurs
among the day's proposed segments. -/
def dayTasks (tasks : List Task) (daySched : List Segment) : List Task :=
  tasks.filter (fun t => daySched.any (fun s => s.task_key == t.key))

/-- One iteration of the `for day in work_days` validation loop: accept the
day when its proposed total does not exceed the available hours, otherwise
discard it and redistribute with `repairPack`. -/
def validateDay (tasks : List Task) (whpd : ℚ) (hbd : HoursByDay)
    (sched : Sched) (day : String) : Option Sched :=
  let daySched := (dictGet sched day).getD []
  let total := (daySched.map (fun s => s.allocated_hours)).sum
  if hbdGet hbd whpd day < total then
    match repairPack (hbdGet hbd whpd day) (dayTasks tasks daySched) 0 with
    | none => none
    | some segs => some (dictSet sched day segs)
  else some sched

/-- `_validate_and_enhance_schedule(parsed_response, tasks, work_hours_per_day,
work_days, available_hours_by_day)`: initialize missing work days to empty
lists, validate/repair each work day, then compute the (guarded) utilization
summary fields. -/
def validate_and_enhance_schedule (prop : Proposal) (tasks : List Task)
    (whpd : ℚ) (wd : List String) (hbd : HoursByDay) : Option ValidatedResult :=
  let sched0 := wd.foldl (fun m d => if dictHasKey m d then m else dictSet m d []) prop.schedule
  match List.foldlM (validateDay tasks whpd hbd) sched0 wd with
  | none => none
  | some sched =>
    let total_allocated := (sched.map (fun p => (p.2.map (fun s => s.allocated_hours)).sum)).sum
    let total_available := (hbd.map (fun p => p.2)).sum
    some { schedule := sched
           unassigned_tasks := prop.unassigned_tasks
           total_allocated_hours := total_allocated
           utilization_percentage :=
             if 0 < total_available then pyRound1 (total_allocated / total_available * 100)
             else 0 }

/-- Modelled from the spec: step 2 of the deterministic fallback packing
restricted to a single day of capacity `cap` — walk the given tasks in order,
skip a task whose remaining hours are zero (spec §4.3 edge case), and while
the day has room allocate `min(task.remainingHours, dayRemaining)`.  Segments
are spec-level pairs `(taskKey, allocatedHours)`. -/
def specRepairDay (cap : ℚ) : List Task → ℚ → List (String × ℚ)
  | [], _ => []
  | t :: rest, used =>
    if 0 < t.remaining_hours ∧ 0 < cap - used then
      (t.key, min t.remaining_hours (cap - used)) ::
        specRepairDay cap rest (used + min t.remaining_hours (cap - used))
    else specRepairDay cap rest used

/-- Sum of allocated hours of the segments recorded for `day`. -/
def daySum (sched : Sched) (day : String) : ℚ :=
  (((dictGet sched day).getD []).map (fun s => s.allocated_hours)).sum

/-- Hours allocated to task key `k` within one day's segment list. -/
def segsAlloc (segs : List Segment) (k : String) : ℚ :=
  ((segs.filter (fun s => s.task_key == k)).map (fun s => s.allocated_hours)).sum

/-- Total hours allocated to task key `k` across every day of the schedule. -/
def allocatedTo (sched : Sched) (k : String) : ℚ :=
  (sched.map (fun p => segsAlloc p.2 k)).sum

/-- The unsatisfied remainder reported for task key `k` in `unassigned_tasks`. -/
def remainderFor (un : List UnassignedEntry) (k : String) : ℚ :=
  ((un.filter (fun u => u.task_key == k)).map (fun u => u.still_needs)).sum

/-! ## Allocation engine data model (`capacity_planning_service.py`)

The mutable `resource.available_capacity` attribute is threaded as a list of
rationals parallel to the resource list; `skills` models the keys of the
skills dictionary; `human_in_requirements` models the substring test
`'human' in str(project.requirements)`.  The `month`/`year` plan fields
(copied from the request start date) are omitted: no claim depends on them.
The efficiency-maximization strategy is not modelled; no claim refers to it. -/

structure Resource where
  rid : Nat
  rtype : String
  capacity : ℚ
  cost_per_unit : ℚ
  skills : List String
deriving DecidableEq

structure Project where
  pid : Nat
  priority : String
  required_capacity : ℚ
  human_in_requirements : Bool
deriving DecidableEq

structure CapacityPlan where
  resource_index : Nat
  project_id : Nat
  planned_capacity : ℚ
  utilization_rate : ℚ
  efficiency_score : ℚ
deriving DecidableEq

/-- `_calculate_efficiency_score(resource, project, allocation)`.  `none`
models the `ZeroDivisionError` of `allocation / resource.capacity` when the
resource's capacity is zero. -/
def calculate_efficiency_score (r : Resource) (pj : Project) (allocation : ℚ) :
    Option ℚ :=
  let base1 : ℚ := 0.5
  let base2 := if r.rtype == "human" && pj.human_in_requirements then base1 + 0.2 else base1
  let base3 := if r.skills.contains "jira_user" then base2 + 0.1 else base2
  if r.capacity = 0 then none
  else
    let base4 := if 0.8 < allocation / r.capacity then base3 + 0.1 else base3
    some (min base4 1)

/-- `_get_priority_score(priority)` with its default of 2. -/
def get_priority_score (p : String) : ℚ :=
  if p == "low" then 1
  else if p == "medium" then 2
  else if p == "high" then 3
  else if p == "critical" then 4
  else 2

/-- Remaining capacities plus the plans accumulated so far. -/
structure AllocState where
  avail : List ℚ
  plans : List CapacityPlan
deriving DecidableEq

/-- One fuel-indexed unfolding of the inner
`while required_capacity > 0 and resource_index < len(resources)` loop of
`_load_balancing_algorithm`.  The return flag is `true` when the loop guard
became false within the given fuel and `false` when the fuel ran out with the
guard still true (the loop is still running); `none` models the
`ZeroDivisionError` on a zero-capacity resource. -/
def lbInner (rs : List Resource) (pj : Project) :
    Nat → ℚ → Nat → AllocState → Option (Bool × ℚ × Nat × AllocState)
  | 0, required, ridx, st =>
    if 0 < required ∧ ridx < rs.length then some (false, required, ridx, st)
    else some (true, required, ridx, st)
  | fuel + 1, required, ridx, st =>
    if h : 0 < required ∧ ridx < rs.length then
      let r := rs.get ⟨ridx, h.2⟩
      let av := (st.avail.get? ridx).getD 0
      let alloc := min required av
      if 0 < alloc then
        match calculate_efficiency_score r pj alloc with
        | none => none
        | some eff =>
          let plan : CapacityPlan :=
            { resource_index := ridx, project_id := pj.pid, planned_capacity := alloc,
              utilization_rate := alloc / r.capacity, efficiency_score := eff }
          lbInner rs pj fuel (required - alloc) ((ridx + 1) % rs.length)
            { avail := st.avail.set ridx (av - alloc), plans := st.plans ++ [plan] }
      else lbInner rs pj fuel required ((ridx + 1) % rs.length) st
    else some (true, required, ridx, st)

/-- The `for project in projects` loop of `_load_balancing_algorithm`.  The
flag is `false` when some project's inner loop is still running after the
given fuel. -/
def lbProjects (rs : List Resource) (fuel : Nat) :
    List Project → Nat → AllocState → Option (Bool × Nat × AllocState)
  | [], ridx, st => some (true, ridx, st)
  | pj :: rest, ridx, st =>
    match lbInner rs pj fuel pj.required_capacity ridx st with
    | none => none
    | some (completed, _, ridx2, st2) =>
      if completed then lbProjects rs fuel rest ridx2 st2
      else some (false, ridx2, st2)

/-- Stable-descending order of `projects.sort(key=..., reverse=True)` on the
priority score. -/
def projectBefore (a b : Project) : Prop :=
  get_priority_score b.priority ≤ get_priority_score a.priority

instance : DecidableRel projectBefore := fun a b =>
  inferInstanceAs (Decidable (get_priority_score b.priority ≤ get_priority_score a.priority))

structure LBResult where
  completed : Bool
  avail : List ℚ
  plans : List CapacityPlan
deriving DecidableEq

/-- `_load_balancing_algorithm(resources, projects, request)` with the
available capacities passed explicitly and a fuel bound on the (possibly
non-terminating) inner while loop. -/
def load_balancing_algorithm (rs : List Resource) (pjs : List Project)
    (avail0 : List ℚ) (fuel : Nat) : Option LBResult :=
  let total_required := (pjs.map (fun p => p.required_capacity)).sum
  let total_available := avail0.sum
  let pjs2 := if total_available < total_required then List.insertionSort projectBefore pjs
    else pjs
  match lbProjects rs fuel pjs2 0 { avail := avail0, plans := [] } with
  | none => none
  | some (completed, _, st) =>
    some { completed := completed, avail := st.avail, plans := st.plans }

/-- Stable-ascending order of `sorted(resources, key=lambda r: r.cost_per_unit)`
on index-resource pairs. -/
def costBefore (a b : Nat × Resource) : Prop :=
  a.2.cost_per_unit ≤ b.2.cost_per_unit

instance : DecidableRel costBefore := fun a b =>
  inferInstanceAs (Decidable (a.2.cost_per_unit ≤ b.2.cost_per_unit))

/-- The `for resource in resources_sorted` loop of
`_cost_optimization_algorithm` for one project (`break` on satisfied
requirement). -/
def coInner (pj : Project) : List (Nat × Resource) → ℚ → AllocState → Option AllocState
  | [], _, st => some st
  | (i, r) :: rest, remaining, st =>
    if remaining ≤ 0 then some st
    else
      let av := (st.avail.get? i).getD 0
      if 0 < av then
        let alloc := min remaining av
        match calculate_efficiency_score r pj alloc with
        | none => none
        | some eff =>
          let plan : CapacityPlan :=
            { resource_index := i, project_id := pj.pid, planned_capacity := alloc,
              utilization_rate := alloc / r.capacity, efficiency_score := eff }
          coInner pj rest (remaining - alloc)
            { avail := st.avail.set i (av - alloc), plans := st.plans ++ [plan] }
      else coInner pj rest remaining st

/-- The `for project in projects` loop of `_cost_optimization_algorithm`. -/
def coProjects (sortedRs : List (Nat × Resource)) :
    List Project → AllocState → Option AllocState
  | [], st => some st
  | pj :: rest, st =>
    match coInner pj sortedRs pj.required_capacity st with
    | none => none
    | some st2 => coProjects sortedRs rest st2

/-- `_cost_optimization_algorithm(resources, projects, request)` with the
available capacities passed explicitly. -/
def cost_optimization_algorithm (rs : List Resource) (pjs : List Project)
    (avail0 : List ℚ) : Option AllocState :=
  coProjects (List.insertionSort costBefore rs.enum) pjs { avail := avail0, plans := [] }

/-- The pristine snapshot in which every resource's available capacity equals
its capacity. -/
def pristine (rs : List Resource) : List ℚ :=
  rs.map (fun r => r.capacity)

/-- Total capacity drawn from the resource at position `i` by the plans. -/
def allocatedToRes (plans : List CapacityPlan) (i : Nat) : ℚ :=
  ((plans.filter (fun p => p.resource_index == i)).map (fun p => p.planned_capacity)).sum

/-- Conservation invariant of an allocation run: the remaining capacity of
every resource equals its capacity minus what the accumulated plans drew from
it, and never goes negative. -/
def conservationInv (rs : List Resource) (st : AllocState) : Prop :=
  st.avail.length = rs.length ∧
  ∀ i (hi : i < rs.length),
    st.avail.get? i = some ((rs.get ⟨i, hi⟩).capacity - allocatedToRes st.plans i) ∧
    0 ≤ (rs.get ⟨i, hi⟩).capacity - allocatedToRes st.plans i

/-- The summary dictionary built by `_generate_summary_statistics`. -/
structure Summary where
  total_planned_capacity : ℚ
  total_available_capacity : ℚ
  total_required_capacity : ℚ
  capacity_utilization_rate : ℚ
  requirement_satisfaction_rate : ℚ
  average_utilization_rate : ℚ
  average_efficiency_score : ℚ
  total_cost : ℚ
  number_of_plans : Nat
  number_of_resources : Nat
  number_of_projects : Nat
deriving DecidableEq

/-- `_generate_summary_statistics(plans, resources, projects)`.  `none` models
the empty dictionary returned when `plans` is empty.  `total_cost` reads each
plan's resource through its position in the resource list. -/
def generate_summary_statistics (plans : List CapacityPlan) (rs : List Resource)
    (pjs : List Project) : Option Summary :=
  if plans.isEmpty then none
  else
    let total_planned := (plans.map (fun p => p.planned_capacity)).sum
    let total_available := (rs.map (fun r => r.capacity)).sum
    let total_required := (pjs.map (fun p => p.required_capacity)).sum
    some { total_planned_capacity := total_planned
           total_available_capacity := total_available
           total_required_capacity := total_required
           capacity_utilization_rate :=
             if 0 < total_available then total_planned / total_available else 0
           requirement_satisfaction_rate :=
             if 0 < total_required then total_planned / total_required else 0
           average_utilization_rate := (plans.map (fun p => p.utilization_rate)).sum / plans.length
           average_efficiency_score := (plans.map (fun p => p.efficiency_score)).sum / plans.length
           total_cost := (plans.map (fun p =>
             p.planned_capacity * (((rs.get? p.resource_index).map
               (fun r => r.cost_per_unit)).getD 0))).sum
           number_of_plans := plans.length
           number_of_resources := rs.length
           number_of_projects := pjs.length }

/-- `summary.get(field, 0)` for rational fields (`summary` may be the empty
dictionary). -/
def sgetQ (s : Option Summary) (f : Summary → ℚ) : ℚ :=
  match s with
  | none => 0
  | some v => f v

/-- `summary.get(field, 0)` for the count fields. -/
def sgetN (s : Option Summary) (f : Summary → Nat) : Nat :=
  match s with
  | none => 0
  | some v => f v

def recUtilLow : String := "Consider increasing resource utilization to improve efficiency"

def recUtilHigh : String :=
  "High utilization detected - consider adding more resources to prevent bottlenecks"

def recSatisfaction : String := "Not all project requirements can be satisfied with current resources"

def recEfficiency : String := "Low efficiency scores detected - review resource-project assignments"

def recCost : String := "High total cost - consider cost optimization strategies"

def recResources : String :=
  "More projects than resources - consider resource sharing or additional resources"

/-- `_generate_recommendations(plans, summary, request)` (only `summary` is
read).  The first two rules are an `if`/`elif` pair in the source; their
conditions are mutually exclusive. -/
def generate_recommendations (s : Option Summary) : List String :=
  (if sgetQ s (fun v => v.capacity_utilization_rate) < 0.7 then [recUtilLow]
   else if 0.95 < sgetQ s (fun v => v.capacity_utilization_rate) then [recUtilHigh]
   else []) ++
  (if sgetQ s (fun v => v.requirement_satisfaction_rate) < 0.9 then [recSatisfaction] else []) ++
  (if sgetQ s (fun v => v.average_efficiency_score) < 0.6 then [recEfficiency] else []) ++
  (if 1000000 < sgetQ s (fun v => v.total_cost) then [recCost] else []) ++
  (if sgetN s (fun v => v.number_of_resources) < sgetN s (fun v => v.number_of_projects) then
    [recResources] else [])

/-! ## Proof development -/

section Proofs

attribute [local semireducible] Rat.add Rat.mul Rat.sub Rat.inv Rat.ofScientific

theorem dictGet_map_set_self {α : Type} (k : String) (v : α) :
    ∀ m : List (String × α), dictHasKey m k →
      dictGet (m.map (fun p => if p.1 == k then (k, v) else p)) k = some v := by
  intro m
  induction m with
  | nil => intro h; simp [dictHasKey] at h
  | cons p rest ih =>
    intro h
    rw [List.map_cons]
    by_cases hp : (p.1 == k) = true
    · rw [if_pos hp]
      unfold dictGet
      rw [@List.find?_cons_of_pos _ (fun q => q.1 == k) (k, v) _ (by simp)]
      rfl
    · rw [if_neg hp]
      unfold dictGet
      rw [@List.find?_cons_of_neg _ (fun q => q.1 == k) p _ (by simpa using hp)]
      apply ih
      unfold dictHasKey at h ⊢
      simpa [hp] using h

theorem dictGet_append_single_self {α : Type} (k : String) (v : α) :
    ∀ m : List (String × α), ¬ dictHasKey m k →
      dictGet (m ++ [(k, v)]) k = some v := by
  intro m
  induction m with
  | nil =>
    intro _
    unfold dictGet
    rw [List.nil_append, @List.find?_cons_of_pos _ (fun q => q.1 == k) (k, v) _ (by simp)]
    rfl
  | cons p rest ih =>
    intro h
    have hh : (p.1 == k) = false ∧ ¬ dictHasKey rest k := by
      unfold dictHasKey at h ⊢
      simp only [List.any_cons, Bool.or_eq_true, not_or] at h
      exact ⟨by simpa using h.1, by simpa using h.2⟩
    rw [List.cons_append]
    unfold dictGet
    rw [@List.find?_cons_of_neg _ (fun q => q.1 == k) p _ (by simp [hh.1])]
    exact ih hh.2

theorem dictGet_dictSet_self {α : Type} (m : List (String × α)) (k : String) (v : α) :
    dictGet (dictSet m k v) k = some v := by
  unfold dictSet
  split_ifs with h
  · exact dictGet_map_set_self k v m h
  · exact dictGet_append_single_self k v m (by simpa using h)

theorem dictGet_map_set_ne {α : Type} (k k' : String) (v : α) (hne : k' ≠ k) :
    ∀ m : List (String × α),
      dictGet (m.map (fun p => if p.1 == k then (k, v) else p)) k' = dictGet m k' := by
  intro m
  induction m with
  | nil => rfl
  | cons p rest ih =>
    rw [List.map_cons]
    by_cases hp : (p.1 == k) = true
    · rw [if_pos hp]
      have hp1 : p.1 = k := by simpa using hp
      have h1 : ¬ (((k, v).1 == k') = true) := by simpa using fun hc => hne hc.symm
      have h2 : ¬ ((p.1 == k') = true) := by
        rw [hp1]; simpa using fun hc => hne hc.symm
      unfold dictGet
      rw [@List.find?_cons_of_neg _ (fun q => q.1 == k') (k, v) _ h1,
        @List.find?_cons_of_neg _ (fun q => q.1 == k') p _ h2]
      exact ih
    · rw [if_neg hp]
      by_cases hp' : (p.1 == k') = true
      · unfold dictGet
        rw [@List.find?_cons_of_pos _ (fun q => q.1 == k') p _ hp',
          @List.find?_cons_of_pos _ (fun q => q.1 == k') p _ hp']
      · unfold dictGet
        rw [@List.find?_cons_of_neg _ (fun q => q.1 == k') p _ hp',
          @List.find?_cons_of_neg _ (fun q => q.1 == k') p _ hp']
        exact ih

theorem dictGet_append_single_ne {α : Type} (k k' : String) (v : α) (hne : k' ≠ k) :
    ∀ m : List (String × α), dictGet (m ++ [(k, v)]) k' = dictGet m k' := by
  intro m
  induction m with
  | nil =>
    unfold dictGet
    rw [List.nil_append,
      @List.find?_cons_of_neg _ (fun q => q.1 == k') (k, v) _ (by simpa using fun hc => hne hc.symm)]
  | cons p rest ih =>
    rw [List.cons_append]
    by_cases hp' : (p.1 == k') = true
    · unfold dictGet
      rw [@List.find?_cons_of_pos _ (fun q => q.1 == k') p _ hp',
        @List.find?_cons_of_pos _ (fun q => q.1 == k') p _ hp']
    · unfold dictGet
      rw [@List.find?_cons_of_neg _ (fun q => q.1 == k') p _ hp',
        @List.find?_cons_of_neg _ (fun q => q.1 == k') p _ hp']
      exact ih

theorem dictGet_dictSet_ne {α : Type} (m : List (String × α)) (k k' : String) (v : α)
    (hne : k' ≠ k) : dictGet (dictSet m k v) k' = dictGet m k' := by
  unfold dictSet
  split_ifs with h
  · exact dictGet_map_set_ne k k' v hne m
  · exact dictGet_append_single_ne k k' v hne m

theorem daySum_schedAppend_self (sched : Sched) (day : String) (seg : Segment) :
    daySum (schedAppend sched day seg) day = daySum sched day + seg.allocated_hours := by
  unfold daySum schedAppend
  rw [dictGet_dictSet_self]
  simp

theorem daySum_schedAppend_ne (sched : Sched) (day d : String) (seg : Segment)
    (hne : d ≠ day) : daySum (schedAppend sched day seg) d = daySum sched d := by
  unfold daySum schedAppend
  rw [dictGet_dictSet_ne _ _ _ _ hne]

theorem hbdGet_nonneg (hbd : HoursByDay) (whpd : ℚ) (d : String)
    (hw : 0 ≤ whpd) (hh : ∀ p ∈ hbd, 0 ≤ p.2) : 0 ≤ hbdGet hbd whpd d := by
  unfold hbdGet dictGet
  cases hfind : hbd.find? (fun p => p.1 == d) with
  | none => simpa using hw
  | some p =>
    have hp := List.mem_of_find?_eq_some hfind
    simpa using hh p hp

theorem initSched_vals (wd : List String) :
    ∀ p ∈ initSched wd, p.2 = ([] : List Segment) := by
  unfold initSched
  have hgen : ∀ (l : List String) (m : Sched), (∀ p ∈ m, p.2 = ([] : List Segment)) →
      ∀ p ∈ l.foldl (fun m d => dictSet m d []) m, p.2 = ([] : List Segment) := by
    intro l
    induction l with
    | nil => intro m hm; simpa using hm
    | cons d rest ih =>
      intro m hm
      simp only [List.foldl_cons]
      apply ih
      intro p hp
      unfold dictSet at hp
      split_ifs at hp with hk
      · rcases List.mem_map.mp hp with ⟨q, hq, rfl⟩
        split_ifs with hq1
        · rfl
        · exact hm q hq
      · rcases List.mem_append.mp hp with hq | hq
        · exact hm p hq
        · simp at hq
          rw [hq]
  exact hgen wd [] (by intro p hp; simp at hp)

theorem daySum_of_vals_nil (m : Sched) (hm : ∀ p ∈ m, p.2 = ([] : List Segment)) (d : String) :
    daySum m d = 0 := by
  unfold daySum dictGet
  cases hfind : m.find? (fun p => p.1 == d) with
  | none => simp
  | some p =>
    have hp := List.mem_of_find?_eq_some hfind
    simp [hm p hp]

theorem daySum_initSched (wd : List String) (d : String) : daySum (initSched wd) d = 0 :=
  daySum_of_vals_nil _ (initSched_vals wd) d

theorem allocTask_exit (wd : List String) (hbd : HoursByDay) (whpd : ℚ) (t : Task)
    (remaining : ℚ) (idx : Nat) (cur : ℚ) (sched : Sched)
    (h : ¬ (0 < remaining ∧ idx < wd.length)) :
    allocTask wd hbd whpd t remaining idx cur sched = some (remaining, idx, cur, sched) := by
  rw [allocTask.eq_def, dif_neg h]

theorem allocTask_skip (wd : List String) (hbd : HoursByDay) (whpd : ℚ) (t : Task)
    (remaining : ℚ) (idx : Nat) (cur : ℚ) (sched : Sched)
    (hrem : 0 < remaining) (hidx : idx < wd.length)
    (hav : ¬ 0 < hbdGet hbd whpd (wd.get ⟨idx, hidx⟩) - cur) :
    allocTask wd hbd whpd t remaining idx cur sched =
      allocTask wd hbd whpd t remaining (idx + 1) 0 sched := by
  rw [allocTask.eq_def, dif_pos ⟨hrem, hidx⟩]
  exact dif_neg hav

theorem allocTask_none (wd : List String) (hbd : HoursByDay) (whpd : ℚ) (t : Task)
    (remaining : ℚ) (idx : Nat) (cur : ℚ) (sched : Sched)
    (hrem : 0 < remaining) (hidx : idx < wd.length)
    (hav : 0 < hbdGet hbd whpd (wd.get ⟨idx, hidx⟩) - cur) (hp : t.priority = none) :
    allocTask wd hbd whpd t remaining idx cur sched = none := by
  rw [allocTask.eq_def, dif_pos ⟨hrem, hidx⟩, dif_pos hav, hp]

theorem allocTask_full (wd : List String) (hbd : HoursByDay) (whpd : ℚ) (t : Task)
    (remaining : ℚ) (idx : Nat) (cur : ℚ) (sched : Sched) (p : String)
    (hrem : 0 < remaining) (hidx : idx < wd.length)
    (hav : 0 < hbdGet hbd whpd (wd.get ⟨idx, hidx⟩) - cur) (hp : t.priority = some p)
    (hfull : hbdGet hbd whpd (wd.get ⟨idx, hidx⟩) ≤
      cur + min remaining (hbdGet hbd whpd (wd.get ⟨idx, hidx⟩) - cur)) :
    allocTask wd hbd whpd t remaining idx cur sched =
      allocTask wd hbd whpd t
        (remaining - min remaining (hbdGet hbd whpd (wd.get ⟨idx, hidx⟩) - cur)) (idx + 1) 0
        (schedAppend sched (wd.get ⟨idx, hidx⟩)
          { task_key := t.key, task_summary := t.summary,
            allocated_hours := min remaining (hbdGet hbd whpd (wd.get ⟨idx, hidx⟩) - cur),
            priority := p, reason := "Part of task scheduled in " ++ wd.get ⟨idx, hidx⟩ }) := by
  rw [allocTask.eq_def, dif_pos ⟨hrem, hidx⟩, dif_pos hav, hp]
  exact dif_pos hfull

theorem allocTask_stay (wd : List String) (hbd : HoursByDay) (whpd : ℚ) (t : Task)
    (remaining : ℚ) (idx : Nat) (cur : ℚ) (sched : Sched) (p : String)
    (hrem : 0 < remaining) (hidx : idx < wd.length)
    (hav : 0 < hbdGet hbd whpd (wd.get ⟨idx, hidx⟩) - cur) (hp : t.priority = some p)
    (hfull : ¬ hbdGet hbd whpd (wd.get ⟨idx, hidx⟩) ≤
      cur + min remaining (hbdGet hbd whpd (wd.get ⟨idx, hidx⟩) - cur)) :
    allocTask wd hbd whpd t remaining idx cur sched =
      allocTask wd hbd whpd t
        (remaining - min remaining (hbdGet hbd whpd (wd.get ⟨idx, hidx⟩) - cur)) idx
        (cur + min remaining (hbdGet hbd whpd (wd.get ⟨idx, hidx⟩) - cur))
        (schedAppend sched (wd.get ⟨idx, hidx⟩)
          { task_key := t.key, task_summary := t.summary,
            allocated_hours := min remaining (hbdGet hbd whpd (wd.get ⟨idx, hidx⟩) - cur),
            priority := p, reason := "Part of task scheduled in " ++ wd.get ⟨idx, hidx⟩ }) := by
  rw [allocTask.eq_def, dif_pos ⟨hrem, hidx⟩, dif_pos hav, hp]
  exact dif_neg hfull

theorem min_stay_eq_remaining {remaining cap cur : ℚ}
    (hfull : ¬ cap ≤ cur + min remaining (cap - cur)) :
    min remaining (cap - cur) = remaining := by
  rcases min_choice remaining (cap - cur) with hm | hm
  · exact hm
  · exfalso
    rw [hm] at hfull
    exact hfull (by linarith)

theorem allocTask_stay_result (wd : List String) (hbd : HoursByDay) (whpd : ℚ) (t : Task)
    (remaining : ℚ) (idx : Nat) (cur : ℚ) (sched : Sched) (p : String)
    (hrem : 0 < remaining) (hidx : idx < wd.length)
    (hav : 0 < hbdGet hbd whpd (wd.get ⟨idx, hidx⟩) - cur) (hp : t.priority = some p)
    (hfull : ¬ hbdGet hbd whpd (wd.get ⟨idx, hidx⟩) ≤
      cur + min remaining (hbdGet hbd whpd (wd.get ⟨idx, hidx⟩) - cur)) :
    allocTask wd hbd whpd t remaining idx cur sched =
      some (0, idx, cur + remaining,
        schedAppend sched (wd.get ⟨idx, hidx⟩)
          { task_key := t.key, task_summary := t.summary, allocated_hours := remaining,
            priority := p, reason := "Part of task scheduled in " ++ wd.get ⟨idx, hidx⟩ }) := by
  have hmin := min_stay_eq_remaining hfull
  rw [allocTask_stay wd hbd whpd t remaining idx cur sched p hrem hidx hav hp hfull, hmin]
  rw [allocTask_exit]
  · norm_num
  · simp

theorem nodup_get_ne (l : List String) (hnd : l.Nodup) {i j : Nat}
    (hi : i < l.length) (hj : j < l.length) (hij : i ≠ j) :
    l.get ⟨i, hi⟩ ≠ l.get ⟨j, hj⟩ := by
  intro hc
  have h2 := (List.Nodup.get_inj_iff hnd).mp hc
  exact hij (by simpa using h2)

theorem schedAppend_inv_step (wd : List String) (hbd : HoursByDay) (whpd : ℚ)
    (hnd : wd.Nodup) (sched : Sched) (idx : Nat) (hidx : idx < wd.length) (cur : ℚ)
    (seg : Segment)
    (hb : ∀ d, daySum sched d ≤ hbdGet hbd whpd d)
    (hc : ∀ h : idx < wd.length, daySum sched (wd.get ⟨idx, h⟩) = cur)
    (hf : ∀ j (hj : j < wd.length), idx < j → daySum sched (wd.get ⟨j, hj⟩) = 0)
    (halloc : cur + seg.allocated_hours ≤ hbdGet hbd whpd (wd.get ⟨idx, hidx⟩)) :
    ((∀ d, daySum (schedAppend sched (wd.get ⟨idx, hidx⟩) seg) d ≤ hbdGet hbd whpd d) ∧
     (∀ h : idx < wd.length,
        daySum (schedAppend sched (wd.get ⟨idx, hidx⟩) seg) (wd.get ⟨idx, h⟩) =
          cur + seg.allocated_hours) ∧
     (∀ j (hj : j < wd.length), idx < j →
        daySum (schedAppend sched (wd.get ⟨idx, hidx⟩) seg) (wd.get ⟨j, hj⟩) = 0)) := by
  refine ⟨?_, ?_, ?_⟩
  · intro d
    by_cases hd : d = wd.get ⟨idx, hidx⟩
    · rw [hd, daySum_schedAppend_self, hc hidx]
      exact halloc
    · rw [daySum_schedAppend_ne _ _ _ _ hd]
      exact hb d
  · intro h
    have hsame : wd.get ⟨idx, h⟩ = wd.get ⟨idx, hidx⟩ := rfl
    rw [hsame, daySum_schedAppend_self, hc hidx]
  · intro j hj hlt
    have hne : wd.get ⟨j, hj⟩ ≠ wd.get ⟨idx, hidx⟩ :=
      nodup_get_ne wd hnd hj hidx (by omega)
    rw [daySum_schedAppend_ne _ _ _ _ hne]
    exact hf j hj hlt

theorem allocTask_daySum_inv (wd : List String) (hbd : HoursByDay) (whpd : ℚ) (t : Task)
    (hnd : wd.Nodup) (hcap : ∀ d, 0 ≤ hbdGet hbd whpd d) :
    ∀ (remaining : ℚ) (idx : Nat) (cur : ℚ) (sched : Sched),
      (∀ d, daySum sched d ≤ hbdGet hbd whpd d) →
      (∀ h : idx < wd.length, daySum sched (wd.get ⟨idx, h⟩) = cur) →
      (∀ j (hj : j < wd.length), idx < j → daySum sched (wd.get ⟨j, hj⟩) = 0) →
      ∀ rem2 idx2 cur2 sched2,
        allocTask wd hbd whpd t remaining idx cur sched = some (rem2, idx2, cur2, sched2) →
        ((∀ d, daySum sched2 d ≤ hbdGet hbd whpd d) ∧
         (∀ h : idx2 < wd.length, daySum sched2 (wd.get ⟨idx2, h⟩) = cur2) ∧
         (∀ j (hj : j < wd.length), idx2 < j → daySum sched2 (wd.get ⟨j, hj⟩) = 0)) := by
  intro remaining idx cur sched
  induction remaining, idx, cur, sched using allocTask.induct wd hbd whpd t with
  | case1 remaining idx cur sched h day hav hp =>
    intro _ _ _ rem2 idx2 cur2 sched2 heq
    rw [allocTask_none wd hbd whpd t remaining idx cur sched h.1 h.2 hav hp] at heq
    cases heq
  | case2 remaining idx cur sched h day hav p hp alloc schedx hfull ih =>
    intro hb hc hf rem2 idx2 cur2 sched2 heq
    rw [allocTask_full wd hbd whpd t remaining idx cur sched p h.1 h.2 hav hp hfull] at heq
    have hstep := schedAppend_inv_step wd hbd whpd hnd sched idx h.2 cur
      { task_key := t.key, task_summary := t.summary,
        allocated_hours := min remaining (hbdGet hbd whpd (wd.get ⟨idx, h.2⟩) - cur),
        priority := p, reason := "Part of task scheduled in " ++ wd.get ⟨idx, h.2⟩ }
      hb hc hf
      (by
        have hm : min remaining (hbdGet hbd whpd (wd.get ⟨idx, h.2⟩) - cur) ≤
            hbdGet hbd whpd (wd.get ⟨idx, h.2⟩) - cur := min_le_right _ _
        show cur + min remaining (hbdGet hbd whpd (wd.get ⟨idx, h.2⟩) - cur) ≤
          hbdGet hbd whpd (wd.get ⟨idx, h.2⟩)
        linarith)
    obtain ⟨hb2, hc2, hf2⟩ := hstep
    exact ih hb2 (fun h1 => hf2 (idx + 1) h1 (by omega))
      (fun j hj hlt => hf2 j hj (by omega)) rem2 idx2 cur2 sched2 heq
  | case3 remaining idx cur sched h day hav p hp alloc schedx hfull ih =>
    intro hb hc hf rem2 idx2 cur2 sched2 heq
    rw [allocTask_stay wd hbd whpd t remaining idx cur sched p h.1 h.2 hav hp hfull] at heq
    have hstep := schedAppend_inv_step wd hbd whpd hnd sched idx h.2 cur
      { task_key := t.key, task_summary := t.summary,
        allocated_hours := min remaining (hbdGet hbd whpd (wd.get ⟨idx, h.2⟩) - cur),
        priority := p, reason := "Part of task scheduled in " ++ wd.get ⟨idx, h.2⟩ }
      hb hc hf
      (by
        have hm : min remaining (hbdGet hbd whpd (wd.get ⟨idx, h.2⟩) - cur) ≤
            hbdGet hbd whpd (wd.get ⟨idx, h.2⟩) - cur := min_le_right _ _
        show cur + min remaining (hbdGet hbd whpd (wd.get ⟨idx, h.2⟩) - cur) ≤
          hbdGet hbd whpd (wd.get ⟨idx, h.2⟩)
        linarith)
    obtain ⟨hb2, hc2, hf2⟩ := hstep
    exact ih hb2 hc2 hf2 rem2 idx2 cur2 sched2 heq
  | case4 remaining idx cur sched h day hav ih =>
    intro hb hc hf rem2 idx2 cur2 sched2 heq
    rw [allocTask_skip wd hbd whpd t remaining idx cur sched h.1 h.2 hav] at heq
    exact ih hb (fun h1 => hf (idx + 1) h1 (by omega))
      (fun j hj hlt => hf j hj (by omega)) rem2 idx2 cur2 sched2 heq
  | case5 remaining idx cur sched h =>
    intro hb hc hf rem2 idx2 cur2 sched2 heq
    rw [allocTask_exit wd hbd whpd t remaining idx cur sched h] at heq
    injection heq with h1
    injection h1 with h1 h2
    injection h2 with h2 h3
    injection h3 with h3 h4
    subst h2 h3 h4
    exact ⟨hb, hc, hf⟩

theorem fallbackLoop_daySum_inv (wd : List String) (hbd : HoursByDay) (whpd : ℚ)
    (hnd : wd.Nodup) (hcap : ∀ d, 0 ≤ hbdGet hbd whpd d) :
    ∀ (ts : List Task) (idx : Nat) (cur : ℚ) (sched : Sched) (un : List UnassignedEntry)
      (sched2 : Sched) (un2 : List UnassignedEntry),
      (∀ d, daySum sched d ≤ hbdGet hbd whpd d) →
      (∀ h : idx < wd.length, daySum sched (wd.get ⟨idx, h⟩) = cur) →
      (∀ j (hj : j < wd.length), idx < j → daySum sched (wd.get ⟨j, hj⟩) = 0) →
      fallbackLoop wd hbd whpd ts idx cur sched un = some (sched2, un2) →
      ∀ d, daySum sched2 d ≤ hbdGet hbd whpd d := by
  intro ts
  induction ts with
  | nil =>
    intro idx cur sched un sched2 un2 hb _ _ heq
    unfold fallbackLoop at heq
    injection heq with heq
    injection heq with h1 h2
    subst h1
    exact hb
  | cons t rest ih =>
    intro idx cur sched un sched2 un2 hb hc hf heq
    unfold fallbackLoop at heq
    cases halloc : allocTask wd hbd whpd t t.remaining_hours idx cur sched with
    | none => rw [halloc] at heq; cases heq
    | some v =>
      obtain ⟨rem2, idx2, cur2, sched3⟩ := v
      rw [halloc] at heq
      obtain ⟨hb2, hc2, hf2⟩ :=
        allocTask_daySum_inv wd hbd whpd t hnd hcap t.remaining_hours idx cur sched
          hb hc hf rem2 idx2 cur2 sched3 halloc
      exact ih idx2 cur2 sched3 _ sched2 un2 hb2 hc2 hf2 heq

theorem fallback_daySum (tasks : List Task) (whpd : ℚ) (wd : List String)
    (hbd : HoursByDay) (res : ScheduleResult)
    (hnd : wd.Nodup) (hw : 0 ≤ whpd) (hh : ∀ p ∈ hbd, 0 ≤ p.2)
    (heq : fallback_organization tasks whpd wd hbd = some res) :
    ∀ d, daySum res.schedule d ≤ hbdGet hbd whpd d := by
  have hcap : ∀ d, 0 ≤ hbdGet hbd whpd d := fun d => hbdGet_nonneg hbd whpd d hw hh
  unfold fallback_organization at heq
  cases hloop : fallbackLoop wd hbd whpd (sort_tasks tasks) 0 0 (initSched wd) [] with
  | none => rw [hloop] at heq; cases heq
  | some pr =>
    obtain ⟨sched, un⟩ := pr
    rw [hloop] at heq
    simp only at heq
    split_ifs at heq with hz
    injection heq with heq
    have hres : res.schedule = sched := by rw [← heq]
    rw [hres]
    exact fallbackLoop_daySum_inv wd hbd whpd hnd hcap (sort_tasks tasks) 0 0
      (initSched wd) [] sched un
      (fun d => by rw [daySum_initSched]; exact hcap d)
      (fun h => daySum_initSched wd _)
      (fun j hj _ => daySum_initSched wd _) hloop

theorem segsAlloc_append (a b : List Segment) (k : String) :
    segsAlloc (a ++ b) k = segsAlloc a k + segsAlloc b k := by
  unfold segsAlloc
  rw [List.filter_append, List.map_append, List.sum_append]

theorem segsAlloc_single (seg : Segment) (k : String) :
    segsAlloc [seg] k = if seg.task_key == k then seg.allocated_hours else 0 := by
  unfold segsAlloc
  by_cases h : (seg.task_key == k) = true
  · simp [List.filter_cons, h]
  · simp [List.filter_cons, h]

theorem remainderFor_append (un : List UnassignedEntry) (e : UnassignedEntry) (k : String) :
    remainderFor (un ++ [e]) k =
      remainderFor un k + (if e.task_key == k then e.still_needs else 0) := by
  unfold remainderFor
  rw [List.filter_append, List.map_append, List.sum_append]
  congr 1
  by_cases h : (e.task_key == k) = true
  · simp [List.filter_cons, h]
  · simp [List.filter_cons, h]

theorem allocatedTo_append (a b : Sched) (k : String) :
    allocatedTo (a ++ b) k = allocatedTo a k + allocatedTo b k := by
  unfold allocatedTo
  rw [List.map_append, List.sum_append]

theorem dictHasKey_iff_mem_keys {α : Type} (m : List (String × α)) (k : String) :
    dictHasKey m k = true ↔ k ∈ m.map Prod.fst := by
  unfold dictHasKey
  simp [List.any_eq_true, List.mem_map]

theorem dictGet_eq_none_of_not_hasKey {α : Type} (m : List (String × α)) (k : String)
    (h : ¬ dictHasKey m k = true) : dictGet m k = none := by
  unfold dictGet
  rw [List.find?_eq_none.mpr]
  · rfl
  · intro p hp
    intro hc
    exact h ((dictHasKey_iff_mem_keys m k).mpr (List.mem_map.mpr ⟨p, hp, by simpa using hc⟩))

theorem dictSet_keys {α : Type} (m : List (String × α)) (k : String) (v : α) :
    (dictSet m k v).map Prod.fst =
      if dictHasKey m k then m.map Prod.fst else m.map Prod.fst ++ [k] := by
  unfold dictSet
  split_ifs with h
  · rw [List.map_map]
    apply List.map_congr_left
    intro p _
    by_cases hpk : p.1 = k
    · simp [hpk]
    · simp [hpk]
  · rw [List.map_append]
    rfl

theorem dictSet_keys_nodup {α : Type} (m : List (String × α)) (k : String) (v : α)
    (hnd : (m.map Prod.fst).Nodup) : ((dictSet m k v).map Prod.fst).Nodup := by
  rw [dictSet_keys]
  split_ifs with h
  · exact hnd
  · have hk : k ∉ m.map Prod.fst := fun hc => h ((dictHasKey_iff_mem_keys m k).mpr hc)
    simp [List.nodup_append, hnd, hk]

theorem allocatedTo_map_set (day : String) (w : List Segment) (k : String) :
    ∀ m : Sched, (m.map Prod.fst).Nodup → dictHasKey m day →
      allocatedTo (m.map (fun p => if p.1 == day then (day, w) else p)) k =
        allocatedTo m k - segsAlloc ((dictGet m day).getD []) k + segsAlloc w k := by
  intro m
  induction m with
  | nil => intro _ h; simp [dictHasKey] at h
  | cons p rest ih =>
    intro hnd h
    have hnd2 : (rest.map Prod.fst).Nodup := (List.nodup_cons.mp hnd).2
    by_cases hpk : (p.1 == day) = true
    · have hp1 : p.1 = day := by simpa using hpk
      have hrest : ∀ q ∈ rest, (if q.1 == day then (day, w) else q) = q := by
        intro q hq
        have hq1 : q.1 ≠ day := by
          intro hc
          have : p.1 ∈ rest.map Prod.fst := by
            rw [hp1, ← hc]
            exact List.mem_map.mpr ⟨q, hq, rfl⟩
          exact (List.nodup_cons.mp hnd).1 this
        simp [hq1]
      rw [List.map_cons, if_pos hpk]
      have hmapid : rest.map (fun p => if p.1 == day then (day, w) else p) = rest :=
        (List.map_congr_left hrest).trans (List.map_id' rest)
      rw [hmapid]
      have hget : dictGet (p :: rest) day = some p.2 := by
        unfold dictGet
        rw [@List.find?_cons_of_pos _ (fun q => q.1 == day) p _ hpk]
        rfl
      rw [hget]
      unfold allocatedTo
      simp only [List.map_cons, List.sum_cons, Option.getD_some]
      ring
    · rw [List.map_cons, if_neg hpk]
      have hrest : dictHasKey rest day := by
        unfold dictHasKey at h ⊢
        simpa [hpk] using h
      have hget : dictGet (p :: rest) day = dictGet rest day := by
        unfold dictGet
        rw [@List.find?_cons_of_neg _ (fun q => q.1 == day) p _ (by simpa using hpk)]
      rw [hget]
      have := ih hnd2 hrest
      unfold allocatedTo at this ⊢
      simp only [List.map_cons, List.sum_cons]
      rw [this]
      ring

theorem allocatedTo_schedAppend (m : Sched) (day : String) (seg : Segment) (k : String)
    (hnd : (m.map Prod.fst).Nodup) :
    allocatedTo (schedAppend m day seg) k =
      allocatedTo m k + (if seg.task_key == k then seg.allocated_hours else 0) := by
  unfold schedAppend
  unfold dictSet
  by_cases h : dictHasKey m day = true
  · rw [if_pos h, allocatedTo_map_set day _ k m hnd h, segsAlloc_append, segsAlloc_single]
    split_ifs <;> ring
  · rw [if_neg h, dictGet_eq_none_of_not_hasKey m day h, allocatedTo_append]
    unfold allocatedTo
    simp only [List.map_cons, List.map_nil, List.sum_cons, List.sum_nil]
    rw [show (Option.getD (none : Option (List Segment)) [] ++ [seg]) = [seg] from rfl]
    rw [segsAlloc_single]
    split_ifs <;> ring

theorem schedAppend_keys_nodup (m : Sched) (day : String) (seg : Segment)
    (hnd : (m.map Prod.fst).Nodup) : ((schedAppend m day seg).map Prod.fst).Nodup :=
  dictSet_keys_nodup _ _ _ hnd

theorem allocTask_alloc_inv (wd : List String) (hbd : HoursByDay) (whpd : ℚ) (t : Task) :
    ∀ (remaining : ℚ) (idx : Nat) (cur : ℚ) (sched : Sched),
      (sched.map Prod.fst).Nodup →
      ∀ rem2 idx2 cur2 sched2,
        allocTask wd hbd whpd t remaining idx cur sched = some (rem2, idx2, cur2, sched2) →
        ((sched2.map Prod.fst).Nodup ∧
         (∀ k, allocatedTo sched2 k =
            allocatedTo sched k + (if t.key == k then remaining - rem2 else 0)) ∧
         (0 ≤ remaining → 0 ≤ rem2)) := by
  intro remaining idx cur sched
  induction remaining, idx, cur, sched using allocTask.induct wd hbd whpd t with
  | case1 remaining idx cur sched h day hav hp =>
    intro _ rem2 idx2 cur2 sched2 heq
    rw [allocTask_none wd hbd whpd t remaining idx cur sched h.1 h.2 hav hp] at heq
    cases heq
  | case2 remaining idx cur sched h day hav p hp alloc schedx hfull ih =>
    intro hnd rem2 idx2 cur2 sched2 heq
    rw [allocTask_full wd hbd whpd t remaining idx cur sched p h.1 h.2 hav hp hfull] at heq
    have hnd2 : ((schedAppend sched (wd.get ⟨idx, h.2⟩)
        { task_key := t.key, task_summary := t.summary,
          allocated_hours := min remaining (hbdGet hbd whpd (wd.get ⟨idx, h.2⟩) - cur),
          priority := p,
          reason := "Part of task scheduled in " ++ wd.get ⟨idx, h.2⟩ }).map Prod.fst).Nodup :=
      schedAppend_keys_nodup _ _ _ hnd
    obtain ⟨hn3, ha3, hr3⟩ := ih hnd2 rem2 idx2 cur2 sched2 heq
    refine ⟨hn3, ?_, ?_⟩
    · intro k
      rw [ha3 k, allocatedTo_schedAppend _ _ _ _ hnd]
      by_cases hk : (t.key == k) = true
      · simp only [hk, if_pos]
        ring
      · simp only [hk, Bool.false_eq_true, if_neg, if_false]
        ring
    · intro hpos
      apply hr3
      have hm : min remaining (hbdGet hbd whpd (wd.get ⟨idx, h.2⟩) - cur) ≤ remaining :=
        min_le_left _ _
      linarith
  | case3 remaining idx cur sched h day hav p hp alloc schedx hfull ih =>
    intro hnd rem2 idx2 cur2 sched2 heq
    rw [allocTask_stay wd hbd whpd t remaining idx cur sched p h.1 h.2 hav hp hfull] at heq
    have hnd2 : ((schedAppend sched (wd.get ⟨idx, h.2⟩)
        { task_key := t.key, task_summary := t.summary,
          allocated_hours := min remaining (hbdGet hbd whpd (wd.get ⟨idx, h.2⟩) - cur),
          priority := p,
          reason := "Part of task scheduled in " ++ wd.get ⟨idx, h.2⟩ }).map Prod.fst).Nodup :=
      schedAppend_keys_nodup _ _ _ hnd
    obtain ⟨hn3, ha3, hr3⟩ := ih hnd2 rem2 idx2 cur2 sched2 heq
    refine ⟨hn3, ?_, ?_⟩
    · intro k
      rw [ha3 k, allocatedTo_schedAppend _ _ _ _ hnd]
      by_cases hk : (t.key == k) = true
      · simp only [hk, if_pos]
        ring
      · simp only [hk, Bool.false_eq_true, if_neg, if_false]
        ring
    · intro hpos
      apply hr3
      have hm : min remaining (hbdGet hbd whpd (wd.get ⟨idx, h.2⟩) - cur) ≤ remaining :=
        min_le_left _ _
      linarith
  | case4 remaining idx cur sched h day hav ih =>
    intro hnd rem2 idx2 cur2 sched2 heq
    rw [allocTask_skip wd hbd whpd t remaining idx cur sched h.1 h.2 hav] at heq
    exact ih hnd rem2 idx2 cur2 sched2 heq
  | case5 remaining idx cur sched h =>
    intro hnd rem2 idx2 cur2 sched2 heq
    rw [allocTask_exit wd hbd whpd t remaining idx cur sched h] at heq
    injection heq with h1
    injection h1 with h1 h2
    injection h2 with h2 h3
    injection h3 with h3 h4
    subst h1 h3 h4
    refine ⟨hnd, ?_, fun hp => hp⟩
    intro k
    split_ifs <;> ring

theorem initSched_keys_nodup (wd : List String) : ((initSched wd).map Prod.fst).Nodup := by
  unfold initSched
  have hgen : ∀ (l : List String) (m : Sched), (m.map Prod.fst).Nodup →
      ((l.foldl (fun m d => dictSet m d []) m).map Prod.fst).Nodup := by
    intro l
    induction l with
    | nil => intro m hm; simpa using hm
    | cons d rest ih =>
      intro m hm
      simp only [List.foldl_cons]
      exact ih _ (dictSet_keys_nodup m d [] hm)
  exact hgen wd [] (by simp)

theorem allocatedTo_of_vals_nil (m : Sched) (hm : ∀ p ∈ m, p.2 = ([] : List Segment))
    (k : String) : allocatedTo m k = 0 := by
  unfold allocatedTo
  apply List.sum_eq_zero
  intro x hx
  rcases List.mem_map.mp hx with ⟨p, hp, rfl⟩
  rw [hm p hp]
  rfl

theorem fallbackLoop_not_mentioned (wd : List String) (hbd : HoursByDay) (whpd : ℚ) :
    ∀ (ts : List Task) (idx : Nat) (cur : ℚ) (sched : Sched) (un : List UnassignedEntry)
      (sched2 : Sched) (un2 : List UnassignedEntry) (k : String),
      (sched.map Prod.fst).Nodup →
      (∀ t' ∈ ts, t'.key ≠ k) →
      fallbackLoop wd hbd whpd ts idx cur sched un = some (sched2, un2) →
      allocatedTo sched2 k = allocatedTo sched k ∧
        remainderFor un2 k = remainderFor un k := by
  intro ts
  induction ts with
  | nil =>
    intro idx cur sched un sched2 un2 k _ _ heq
    unfold fallbackLoop at heq
    injection heq with heq
    injection heq with h1 h2
    subst h1 h2
    exact ⟨rfl, rfl⟩
  | cons t rest ih =>
    intro idx cur sched un sched2 un2 k hnd hmem heq
    unfold fallbackLoop at heq
    cases halloc : allocTask wd hbd whpd t t.remaining_hours idx cur sched with
    | none => rw [halloc] at heq; cases heq
    | some v =>
      obtain ⟨rem2, idx2, cur2, sched3⟩ := v
      rw [halloc] at heq
      obtain ⟨hnd3, ha3, _⟩ :=
        allocTask_alloc_inv wd hbd whpd t t.remaining_hours idx cur sched hnd
          rem2 idx2 cur2 sched3 halloc
      have hkey : t.key ≠ k := hmem t (by simp)
      have hkeyb : (t.key == k) = false := by simpa using hkey
      obtain ⟨hA, hB⟩ := ih idx2 cur2 sched3 _ sched2 un2 k hnd3
        (fun t' ht' => hmem t' (by simp [ht'])) heq
      constructor
      · rw [hA, ha3 k, hkeyb]
        simp
      · rw [hB]
        by_cases h0 : 0 < rem2
        · rw [if_pos h0, remainderFor_append]
          simp [hkeyb]
        · rw [if_neg h0]

theorem fallbackLoop_conservation (wd : List String) (hbd : HoursByDay) (whpd : ℚ) :
    ∀ (ts : List Task) (t : Task) (idx : Nat) (cur : ℚ) (sched : Sched)
      (un : List UnassignedEntry) (sched2 : Sched) (un2 : List UnassignedEntry),
      (sched.map Prod.fst).Nodup →
      (ts.map Task.key).Nodup →
      t ∈ ts →
      0 ≤ t.remaining_hours →
      fallbackLoop wd hbd whpd ts idx cur sched un = some (sched2, un2) →
      allocatedTo sched2 t.key + remainderFor un2 t.key =
        allocatedTo sched t.key + remainderFor un t.key + t.remaining_hours := by
  intro ts
  induction ts with
  | nil => intro t idx cur sched un sched2 un2 _ _ hmem; cases hmem
  | cons hd rest ih =>
    intro t idx cur sched un sched2 un2 hnd hknd hmem hpos heq
    unfold fallbackLoop at heq
    cases halloc : allocTask wd hbd whpd hd hd.remaining_hours idx cur sched with
    | none => rw [halloc] at heq; cases heq
    | some v =>
      obtain ⟨rem2, idx2, cur2, sched3⟩ := v
      rw [halloc] at heq
      obtain ⟨hnd3, ha3, hr3⟩ :=
        allocTask_alloc_inv wd hbd whpd hd hd.remaining_hours idx cur sched hnd
          rem2 idx2 cur2 sched3 halloc
      by_cases hht : hd = t
      · subst hht
        have hrestne : ∀ t' ∈ rest, t'.key ≠ hd.key := by
          intro t' ht' hc
          have hmem2 : hd.key ∈ rest.map Task.key := List.mem_map.mpr ⟨t', ht', hc⟩
          exact (List.nodup_cons.mp hknd).1 hmem2
        obtain ⟨hA, hB⟩ := fallbackLoop_not_mentioned wd hbd whpd rest idx2 cur2 sched3 _
          sched2 un2 hd.key hnd3 hrestne heq
        rw [hA, hB, ha3 hd.key]
        have hkk : (hd.key == hd.key) = true := by simp
        rw [hkk]
        have hrem2 := hr3 hpos
        by_cases h0 : 0 < rem2
        · rw [if_pos h0, remainderFor_append]
          simp only [hkk, if_pos]
          ring
        · have hz : rem2 = 0 := le_antisymm (not_lt.mp h0) hrem2
          rw [if_neg h0, hz]
          simp only [if_pos]
          ring
      · have hmem2 : t ∈ rest := by
          rcases List.mem_cons.mp hmem with hc | hc
          · exact absurd hc.symm hht
          · exact hc
        have htk : (hd.key == t.key) = false := by
          have : t.key ∈ rest.map Task.key := List.mem_map.mpr ⟨t, hmem2, rfl⟩
          have hne : hd.key ≠ t.key := fun hc => (List.nodup_cons.mp hknd).1 (hc ▸ this)
          simpa using hne
        have hknd2 : (rest.map Task.key).Nodup := (List.nodup_cons.mp hknd).2
        have hih := ih t idx2 cur2 sched3 _ sched2 un2 hnd3 hknd2 hmem2 hpos heq
        rw [hih, ha3 t.key, htk]
        by_cases h0 : 0 < rem2
        · rw [if_pos h0, remainderFor_append, htk]
          simp
        · rw [if_neg h0]
          simp

theorem fallback_conservation (tasks : List Task) (whpd : ℚ) (wd : List String)
    (hbd : HoursByDay) (res : ScheduleResult) (t : Task)
    (hknd : (tasks.map Task.key).Nodup) (hmem : t ∈ tasks) (hpos : 0 ≤ t.remaining_hours)
    (heq : fallback_organization tasks whpd wd hbd = some res) :
    allocatedTo res.schedule t.key + remainderFor res.unassigned_tasks t.key =
      t.remaining_hours := by
  unfold fallback_organization at heq
  cases hloop : fallbackLoop wd hbd whpd (sort_tasks tasks) 0 0 (initSched wd) [] with
  | none => rw [hloop] at heq; cases heq
  | some pr =>
    obtain ⟨sched, un⟩ := pr
    rw [hloop] at heq
    simp only at heq
    split_ifs at heq with hz
    injection heq with heq
    have hres1 : res.schedule = sched := by rw [← heq]
    have hres2 : res.unassigned_tasks = un := by rw [← heq]
    have hperm : List.Perm (sort_tasks tasks) tasks := List.perm_insertionSort taskBefore tasks
    have hknd2 : ((sort_tasks tasks).map Task.key).Nodup :=
      (List.Perm.nodup_iff (hperm.map Task.key)).mpr hknd
    have hmem2 : t ∈ sort_tasks tasks := hperm.mem_iff.mpr hmem
    have hcons := fallbackLoop_conservation wd hbd whpd (sort_tasks tasks) t 0 0
      (initSched wd) [] sched un (initSched_keys_nodup wd) hknd2 hmem2 hpos hloop
    rw [hres1, hres2, hcons, allocatedTo_of_vals_nil _ (initSched_vals wd)]
    unfold remainderFor
    simp

theorem repairPack_bound (cap : ℚ) :
    ∀ (ts : List Task) (cur : ℚ) (segs : List Segment),
      repairPack cap ts cur = some segs →
      cur + (segs.map (fun s => s.allocated_hours)).sum ≤ max cur cap := by
  intro ts
  induction ts with
  | nil =>
    intro cur segs heq
    unfold repairPack at heq
    injection heq with h
    subst h
    simpa using le_max_left cur cap
  | cons t rest ih =>
    intro cur segs heq
    unfold repairPack at heq
    split_ifs at heq with hav
    · cases hp : t.priority with
      | none => rw [hp] at heq; cases heq
      | some p =>
        rw [hp] at heq
        cases hrec : repairPack cap rest (cur + min t.remaining_hours (cap - cur)) with
        | none => rw [hrec] at heq; cases heq
        | some segs2 =>
          rw [hrec] at heq
          injection heq with h
          subst h
          have hb := ih (cur + min t.remaining_hours (cap - cur)) segs2 hrec
          have hmin : min t.remaining_hours (cap - cur) ≤ cap - cur := min_le_right _ _
          have hmax : max (cur + min t.remaining_hours (cap - cur)) cap = cap :=
            max_eq_right (by linarith)
          rw [hmax] at hb
          have hcap : cap ≤ max cur cap := le_max_right _ _
          show cur + (min t.remaining_hours (cap - cur) +
            (segs2.map (fun s => s.allocated_hours)).sum) ≤ max cur cap
          linarith
    · exact ih cur segs heq

theorem validateDay_frame (tasks : List Task) (whpd : ℚ) (hbd : HoursByDay)
    (sched : Sched) (day : String) (sched2 : Sched)
    (heq : validateDay tasks whpd hbd sched day = some sched2) :
    ∀ d, d ≠ day → dictGet sched2 d = dictGet sched d := by
  intro d hd
  simp only [validateDay] at heq
  split_ifs at heq with h
  · cases hrep : repairPack (hbdGet hbd whpd day)
        (dayTasks tasks ((dictGet sched day).getD [])) 0 with
    | none => rw [hrep] at heq; cases heq
    | some segs =>
      rw [hrep] at heq
      injection heq with h2
      subst h2
      exact dictGet_dictSet_ne sched day d segs hd
  · injection heq with h2
    subst h2
    rfl

theorem validateDay_bound (tasks : List Task) (whpd : ℚ) (hbd : HoursByDay)
    (sched : Sched) (day : String) (sched2 : Sched)
    (hcap : 0 ≤ hbdGet hbd whpd day)
    (heq : validateDay tasks whpd hbd sched day = some sched2) :
    daySum sched2 day ≤ hbdGet hbd whpd day := by
  simp only [validateDay] at heq
  split_ifs at heq with h
  · cases hrep : repairPack (hbdGet hbd whpd day)
        (dayTasks tasks ((dictGet sched day).getD [])) 0 with
    | none => rw [hrep] at heq; cases heq
    | some segs =>
      rw [hrep] at heq
      injection heq with h2
      subst h2
      have hb := repairPack_bound (hbdGet hbd whpd day) _ 0 segs hrep
      rw [max_eq_right hcap] at hb
      unfold daySum
      rw [dictGet_dictSet_self]
      simpa using hb
  · injection heq with h2
    subst h2
    exact le_of_not_lt h

theorem validateDay_characterize (tasks : List Task) (whpd : ℚ) (hbd : HoursByDay)
    (sched : Sched) (day : String) (sched2 : Sched)
    (heq : validateDay tasks whpd hbd sched day = some sched2) :
    (daySum sched day ≤ hbdGet hbd whpd day → sched2 = sched) ∧
    (hbdGet hbd whpd day < daySum sched day →
      ∃ segs, repairPack (hbdGet hbd whpd day)
          (dayTasks tasks ((dictGet sched day).getD [])) 0 = some segs ∧
        dictGet sched2 day = some segs) := by
  simp only [validateDay] at heq
  split_ifs at heq with h
  · cases hrep : repairPack (hbdGet hbd whpd day)
        (dayTasks tasks ((dictGet sched day).getD [])) 0 with
    | none => rw [hrep] at heq; cases heq
    | some segs =>
      rw [hrep] at heq
      injection heq with h2
      subst h2
      constructor
      · intro hle
        exact absurd h (not_lt.mpr hle)
      · intro _
        exact ⟨segs, rfl, dictGet_dictSet_self sched day segs⟩
  · injection heq with h2
    subst h2
    constructor
    · intro _
      rfl
    · intro hlt
      exact absurd hlt h

theorem foldlM_validateDay_frame (tasks : List Task) (whpd : ℚ) (hbd : HoursByDay) :
    ∀ (l : List String) (sched sched2 : Sched),
      List.foldlM (validateDay tasks whpd hbd) sched l = some sched2 →
      ∀ d, d ∉ l → dictGet sched2 d = dictGet sched d := by
  intro l
  induction l with
  | nil =>
    intro sched sched2 heq d _
    simp only [List.foldlM_nil] at heq
    injection heq with h
    subst h
    rfl
  | cons a rest ih =>
    intro sched sched2 heq d hd
    rw [List.foldlM_cons] at heq
    cases hstep : validateDay tasks whpd hbd sched a with
    | none => rw [hstep] at heq; cases heq
    | some mid =>
      rw [hstep] at heq
      have hda : d ≠ a := fun hc => hd (by rw [hc]; simp)
      have hdr : d ∉ rest := fun hc => hd (by simp [hc])
      rw [ih mid sched2 heq d hdr]
      exact validateDay_frame tasks whpd hbd sched a mid hstep d hda

theorem foldlM_validateDay_split (tasks : List Task) (whpd : ℚ) (hbd : HoursByDay) :
    ∀ (l1 : List String) (day : String) (l2 : List String) (sched sched2 : Sched),
      List.foldlM (validateDay tasks whpd hbd) sched (l1 ++ day :: l2) = some sched2 →
      ∃ mid mid2, List.foldlM (validateDay tasks whpd hbd) sched l1 = some mid ∧
        validateDay tasks whpd hbd mid day = some mid2 ∧
        List.foldlM (validateDay tasks whpd hbd) mid2 l2 = some sched2 := by
  intro l1
  induction l1 with
  | nil =>
    intro day l2 sched sched2 heq
    rw [List.nil_append, List.foldlM_cons] at heq
    cases hstep : validateDay tasks whpd hbd sched day with
    | none => rw [hstep] at heq; cases heq
    | some mid2 =>
      rw [hstep] at heq
      exact ⟨sched, mid2, by simp [List.foldlM_nil], hstep, heq⟩
  | cons a rest ih =>
    intro day l2 sched sched2 heq
    rw [List.cons_append, List.foldlM_cons] at heq
    cases hstep : validateDay tasks whpd hbd sched a with
    | none => rw [hstep] at heq; cases heq
    | some mid0 =>
      rw [hstep] at heq
      obtain ⟨mid, mid2, h1, h2, h3⟩ := ih day l2 mid0 sched2 heq
      refine ⟨mid, mid2, ?_, h2, h3⟩
      rw [List.foldlM_cons, hstep]
      exact h1

theorem initFold_getD (wd : List String) :
    ∀ (m : Sched) (d : String),
      (dictGet (wd.foldl (fun m d => if dictHasKey m d then m else dictSet m d []) m) d).getD []
        = (dictGet m d).getD [] := by
  induction wd with
  | nil => intro m d; rfl
  | cons a rest ih =>
    intro m d
    rw [List.foldl_cons]
    rw [ih]
    by_cases h : dictHasKey m a = true
    · rw [if_pos h]
    · rw [if_neg h]
      by_cases hd : d = a
      · subst hd
        rw [dictGet_dictSet_self, dictGet_eq_none_of_not_hasKey m d h]
        rfl
      · rw [dictGet_dictSet_ne m a d [] hd]

theorem validate_daySum (prop : Proposal) (tasks : List Task) (whpd : ℚ)
    (wd : List String) (hbd : HoursByDay) (res : ValidatedResult)
    (hnd : wd.Nodup) (hw : 0 ≤ whpd) (hh : ∀ p ∈ hbd, 0 ≤ p.2)
    (heq : validate_and_enhance_schedule prop tasks whpd wd hbd = some res) :
    ∀ day ∈ wd, daySum res.schedule day ≤ hbdGet hbd whpd day := by
  intro day hday
  simp only [validate_and_enhance_schedule] at heq
  cases hfold : List.foldlM (validateDay tasks whpd hbd)
      (wd.foldl (fun m d => if dictHasKey m d then m else dictSet m d []) prop.schedule)
      wd with
  | none => rw [hfold] at heq; cases heq
  | some sched =>
    rw [hfold] at heq
    injection heq with heq
    have hres : res.schedule = sched := by rw [← heq]
    obtain ⟨l1, l2, hsplit⟩ := List.append_of_mem hday
    rw [hsplit] at hfold
    obtain ⟨mid, mid2, _, h2, h3⟩ :=
      foldlM_validateDay_split tasks whpd hbd l1 day l2 _ sched hfold
    have hnd2 := hnd
    rw [hsplit] at hnd2
    have hmiddle := List.nodup_middle.mp hnd2
    have hnotin := (List.nodup_cons.mp hmiddle).1
    have hday2 : day ∉ l2 := fun hc => hnotin (by simp [hc])
    have hbound := validateDay_bound tasks whpd hbd mid day mid2
      (hbdGet_nonneg hbd whpd day hw hh) h2
    have hframe := foldlM_validateDay_frame tasks whpd hbd l2 mid2 sched h3 day hday2
    rw [hres]
    unfold daySum at hbound ⊢
    rw [hframe]
    exact hbound

/-- C2 (amended): for every task list and availableHoursByDay map with a
non-negative default and non-negative values, and duplicate-free configured
work days, every schedule the engine returns — from the deterministic fallback
(for every day name) or from accepting/repairing an advisory proposal (for
every configured work day; days present only in the proposal pass through
unvalidated) — has, for each such day, segment hours summing to at most that
day's available hours. -/
theorem C2_daily_cap_invariant :
    (∀ (tasks : List Task) (whpd : ℚ) (wd : List String) (hbd : HoursByDay)
        (res : ScheduleResult),
        wd.Nodup → 0 ≤ whpd → (∀ p ∈ hbd, 0 ≤ p.2) →
        fallback_organization tasks whpd wd hbd = some res →
        ∀ d, daySum res.schedule d ≤ hbdGet hbd whpd d) ∧
    (∀ (prop : Proposal) (tasks : List Task) (whpd : ℚ) (wd : List String)
        (hbd : HoursByDay) (res : ValidatedResult),
        wd.Nodup → 0 ≤ whpd → (∀ p ∈ hbd, 0 ≤ p.2) →
        validate_and_enhance_schedule prop tasks whpd wd hbd = some res →
        ∀ day ∈ wd, daySum res.schedule day ≤ hbdGet hbd whpd day) :=
  ⟨fun tasks whpd wd hbd res hnd hw hh heq =>
      fallback_daySum tasks whpd wd hbd res hnd hw hh heq,
   fun prop tasks whpd wd hbd res hnd hw hh heq =>
      validate_daySum prop tasks whpd wd hbd res hnd hw hh heq⟩

/-- C2 counterexample: a proposal may mention a day (here `Funday`) that is not
among the configured work days; the engine returns it unvalidated, with 100
allocated hours against the 8 available hours the engine's own lookup assigns
that day, so the claim as stated (every day of any returned schedule respects
its cap) is false. -/
theorem C2_counterexample :
    ((validate_and_enhance_schedule
        { schedule := [("Funday",
            [{ task_key := "X", task_summary := "x", allocated_hours := 100,
               priority := "High", reason := "ai" }])],
          unassigned_tasks := [] }
        [] 8 ["Monday"] [("Monday", 8)]).map
      (fun r => daySum r.schedule "Funday") = some 100) ∧
    hbdGet [("Monday", 8)] 8 "Funday" = 8 ∧ ¬ ((100 : ℚ) ≤ 8) := by
  refine ⟨by decide, by decide, by norm_num⟩

theorem C2_witness :
    (["Monday"].Nodup ∧ (0 : ℚ) ≤ 8 ∧ ∀ p ∈ [("Monday", (8 : ℚ))], 0 ≤ p.2) ∧
    (∀ d, daySum [("Monday", [])] d ≤ hbdGet [("Monday", 8)] 8 d) := by
  refine ⟨⟨by decide, by norm_num, by decide⟩, ?_⟩
  exact C2_daily_cap_invariant.1 [] 8 ["Monday"] [("Monday", 8)]
    { total_tasks := 0, total_hours := 0, available_hours := 8,
      total_allocated_hours := 0, utilization_percentage := 0,
      schedule := [("Monday", [])], unassigned_tasks := [] }
    (by decide) (by norm_num) (by decide) (by decide)

/-- C3 (amended): on the deterministic fallback path, for every task with a
non-negative remaining-hours value in a task list with pairwise-distinct keys,
the hours allocated to that task across all segments of the returned schedule
plus the remainder reported for it in unassignedTasks equal the task's
original remainingHours.  (On the advisory validate/repair path the equation
does not hold; see the counterexample.) -/
theorem C3_task_conservation (tasks : List Task) (whpd : ℚ) (wd : List String)
    (hbd : HoursByDay) (res : ScheduleResult) (t : Task)
    (hknd : (tasks.map Task.key).Nodup) (hmem : t ∈ tasks)
    (hpos : 0 ≤ t.remaining_hours)
    (heq : fallback_organization tasks whpd wd hbd = some res) :
    allocatedTo res.schedule t.key + remainderFor res.unassigned_tasks t.key =
      t.remaining_hours :=
  fallback_conservation tasks whpd wd hbd res t hknd hmem hpos heq

/-- C3 counterexample: on the validate/repair path a task with 5 remaining
hours whose day is repaired receives only 3 hours and nothing is reported in
unassignedTasks, so allocated + reported remainder (3 + 0) differs from the
original remaining hours (5). -/
theorem C3_counterexample :
    ((validate_and_enhance_schedule
        { schedule := [("Monday",
            [{ task_key := "T", task_summary := "t", allocated_hours := 10,
               priority := "High", reason := "ai" }])],
          unassigned_tasks := [] }
        [{ key := "T", summary := "t", priority := some "High", due_date := some "",
           remaining_hours := 5 }]
        8 ["Monday"] [("Monday", 3)]).map
      (fun r => (allocatedTo r.schedule "T", remainderFor r.unassigned_tasks "T")) =
      some (3, 0)) ∧
    ¬ ((3 : ℚ) + 0 = 5) := by
  refine ⟨by decide, by norm_num⟩

theorem fallback_eval_two :
    fallback_organization
      [{ key := "TB", summary := "b", priority := some "Urgent", due_date := some "",
         remaining_hours := 2 },
       { key := "TN", summary := "n", priority := some "Medium", due_date := some "",
         remaining_hours := 2 }] 8 ["Monday"] [("Monday", 8)] =
      some { total_tasks := 2, total_hours := 4, available_hours := 8,
             total_allocated_hours := 4, utilization_percentage := 50,
             schedule := [("Monday",
               [{ task_key := "TN", task_summary := "n", allocated_hours := 2,
                  priority := "Medium", reason := "Part of task scheduled in Monday" },
                { task_key := "TB", task_summary := "b", allocated_hours := 2,
                  priority := "Urgent", reason := "Part of task scheduled in Monday" }])],
             unassigned_tasks := [] } := by
  have h1 : allocTask ["Monday"] [("Monday", 8)] 8
      { key := "TN", summary := "n", priority := some "Medium", due_date := some "",
        remaining_hours := 2 } 2 0 0 (initSched ["Monday"]) =
      some (0, 0, 2, [("Monday",
        [{ task_key := "TN", task_summary := "n", allocated_hours := 2,
           priority := "Medium", reason := "Part of task scheduled in Monday" }])]) := by
    rw [allocTask_stay_result ["Monday"] [("Monday", 8)] 8
      { key := "TN", summary := "n", priority := some "Medium", due_date := some "",
        remaining_hours := 2 } 2 0 0 (initSched ["Monday"]) "Medium"
      (by norm_num) (by decide) (by decide) rfl (by decide)]
    rfl
  have h2 : allocTask ["Monday"] [("Monday", 8)] 8
      { key := "TB", summary := "b", priority := some "Urgent", due_date := some "",
        remaining_hours := 2 } 2 0 2
      [("Monday",
        [{ task_key := "TN", task_summary := "n", allocated_hours := 2,
           priority := "Medium", reason := "Part of task scheduled in Monday" }])] =
      some (0, 0, 4, [("Monday",
        [{ task_key := "TN", task_summary := "n", allocated_hours := 2,
           priority := "Medium", reason := "Part of task scheduled in Monday" },
         { task_key := "TB", task_summary := "b", allocated_hours := 2,
           priority := "Urgent", reason := "Part of task scheduled in Monday" }])]) := by
    rw [allocTask_stay_result ["Monday"] [("Monday", 8)] 8
      { key := "TB", summary := "b", priority := some "Urgent", due_date := some "",
        remaining_hours := 2 } 2 0 2
      [("Monday",
        [{ task_key := "TN", task_summary := "n", allocated_hours := 2,
           priority := "Medium", reason := "Part of task scheduled in Monday" }])] "Urgent"
      (by norm_num) (by decide) (by decide) rfl (by decide)]
    rfl
  have hs : sort_tasks
      [{ key := "TB", summary := "b", priority := some "Urgent", due_date := some "",
         remaining_hours := 2 },
       { key := "TN", summary := "n", priority := some "Medium", due_date := some "",
         remaining_hours := 2 }] =
      [{ key := "TN", summary := "n", priority := some "Medium", due_date := some "",
         remaining_hours := 2 },
       { key := "TB", summary := "b", priority := some "Urgent", due_date := some "",
         remaining_hours := 2 }] := by decide
  unfold fallback_organization
  rw [hs]
  simp only [fallbackLoop, h1, h2]
  norm_num
  decide

theorem C3_witness :
    (([{ key := "TB", summary := "b", priority := some "Urgent", due_date := some "",
          remaining_hours := 2 },
        { key := "TN", summary := "n", priority := some "Medium", due_date := some "",
          remaining_hours := 2 }] : List Task).map Task.key).Nodup ∧
    (({ key := "TB", summary := "b", priority := some "Urgent", due_date := some "",
        remaining_hours := 2 } : Task) ∈
      [{ key := "TB", summary := "b", priority := some "Urgent", due_date := some "",
         remaining_hours := 2 },
       { key := "TN", summary := "n", priority := some "Medium", due_date := some "",
         remaining_hours := 2 }]) ∧
    (0 : ℚ) ≤ 2 ∧
    allocatedTo [("Monday",
        [{ task_key := "TN", task_summary := "n", allocated_hours := 2,
           priority := "Medium", reason := "Part of task scheduled in Monday" },
         { task_key := "TB", task_summary := "b", allocated_hours := 2,
           priority := "Urgent", reason := "Part of task scheduled in Monday" }])] "TB" +
      remainderFor ([] : List UnassignedEntry) "TB" = 2 := by
  refine ⟨by decide, by decide, by norm_num, ?_⟩
  exact C3_task_conservation
    [{ key := "TB", summary := "b", priority := some "Urgent", due_date := some "",
       remaining_hours := 2 },
     { key := "TN", summary := "n", priority := some "Medium", due_date := some "",
       remaining_hours := 2 }] 8 ["Monday"] [("Monday", 8)]
    { total_tasks := 2, total_hours := 4, available_hours := 8,
      total_allocated_hours := 4, utilization_percentage := 50,
      schedule := [("Monday",
        [{ task_key := "TN", task_summary := "n", allocated_hours := 2,
           priority := "Medium", reason := "Part of task scheduled in Monday" },
         { task_key := "TB", task_summary := "b", allocated_hours := 2,
           priority := "Urgent", reason := "Part of task scheduled in Monday" }])],
      unassigned_tasks := [] }
    { key := "TB", summary := "b", priority := some "Urgent", due_date := some "",
      remaining_hours := 2 }
    (by decide) (by decide) (by norm_num) fallback_eval_two

/-- C10: in the fallback sort a present-but-unrecognized priority string gets
ordinal 1 (like Low) while an absent priority gets ordinal 2 (like Medium);
consequently a task with an unrecognized priority is scheduled strictly after
an otherwise identical task without a priority (through the entry point's
normalization, which turns an absent priority into Medium). -/
theorem C10_unrecognized_priority :
    (∀ s : String, s ≠ "High" → s ≠ "Medium" → s ≠ "Low" → sortOrdinal (some s) = 1) ∧
    sortOrdinal none = 2 ∧
    ((fallback_organization
        (List.map organizeTaskData
          [{ key := some "TB", summary := some "b", priority := some "Urgent",
             remaining_estimate_hours := some 2, due_date := none },
           { key := some "TN", summary := some "n", priority := none,
             remaining_estimate_hours := some 2, due_date := none }])
        8 ["Monday"] [("Monday", 8)]).map
      (fun r => ((dictGet r.schedule "Monday").getD []).map (fun s => s.task_key)) =
      some ["TN", "TB"]) := by
  refine ⟨?_, by decide, ?_⟩
  · intro s h1 h2 h3
    unfold sortOrdinal priority_order
    simp [h1, h2, h3]
  · have hnorm : List.map organizeTaskData
        [{ key := some "TB", summary := some "b", priority := some "Urgent",
           remaining_estimate_hours := some 2, due_date := none },
         { key := some "TN", summary := some "n", priority := none,
           remaining_estimate_hours := some 2, due_date := none }] =
        [{ key := "TB", summary := "b", priority := some "Urgent", due_date := some "",
           remaining_hours := 2 },
         { key := "TN", summary := "n", priority := some "Medium", due_date := some "",
           remaining_hours := 2 }] := by decide
    rw [hnorm, fallback_eval_two]
    decide

theorem C10_witness :
    ("Urgent" ≠ "High" ∧ "Urgent" ≠ "Medium" ∧ "Urgent" ≠ "Low") ∧
    sortOrdinal (some "Urgent") = 1 :=
  ⟨⟨by decide, by decide, by decide⟩,
   C10_unrecognized_priority.1 "Urgent" (by decide) (by decide) (by decide)⟩

/-- C4: evaluation of the fallback sort at two tasks of equal priority and
remaining hours shows the task with the later due date (2024-02-01) is placed
first: `sorted(..., reverse=True)` reverses the due-date component of the key
as well, contradicting the claimed earlier-due-date-first order. -/
theorem C4_sort_puts_later_due_date_first :
    sort_tasks
      [{ key := "A", summary := "a", priority := some "High",
         due_date := some "2024-01-01", remaining_hours := 1 },
       { key := "B", summary := "b", priority := some "High",
         due_date := some "2024-02-01", remaining_hours := 1 }] =
      [{ key := "B", summary := "b", priority := some "High",
         due_date := some "2024-02-01", remaining_hours := 1 },
       { key := "A", summary := "a", priority := some "High",
         due_date := some "2024-01-01", remaining_hours := 1 }] := by
  decide

/-- C6: with an empty task list the fallback crashes with a ZeroDivisionError
when the available hours are all zero (the claim says it should return
utilization 0 without error), while with positive available hours it returns
exactly the claimed result: every configured day present and empty, zero
utilization, no unassigned tasks. -/
theorem C6_empty_tasks_zero_hours :
    fallback_organization [] 8 ["Monday"] [("Monday", 0)] = none ∧
    fallback_organization [] 8 ["Monday"] [("Monday", 8)] =
      some { total_tasks := 0, total_hours := 0, available_hours := 8,
             total_allocated_hours := 0, utilization_percentage := 0,
             schedule := [("Monday", [])], unassigned_tasks := [] } :=
  ⟨by decide, by decide⟩

theorem repairPack_spec_correspondence (cap : ℚ) :
    ∀ (ts : List Task) (cur : ℚ) (segs : List Segment),
      (∀ t ∈ ts, 0 < t.remaining_hours) →
      repairPack cap ts cur = some segs →
      segs.map (fun s => (s.task_key, s.allocated_hours)) = specRepairDay cap ts cur := by
  intro ts
  induction ts with
  | nil =>
    intro cur segs _ heq
    unfold repairPack at heq
    injection heq with h
    subst h
    rfl
  | cons t rest ih =>
    intro cur segs hpos heq
    unfold repairPack at heq
    unfold specRepairDay
    split_ifs at heq with hav
    · cases hp : t.priority with
      | none => rw [hp] at heq; cases heq
      | some p =>
        rw [hp] at heq
        cases hrec : repairPack cap rest (cur + min t.remaining_hours (cap - cur)) with
        | none => rw [hrec] at heq; cases heq
        | some segs2 =>
          rw [hrec] at heq
          injection heq with h
          subst h
          rw [if_pos ⟨hpos t (by simp), hav⟩]
          simp only [List.map_cons]
          congr 1
          exact ih _ segs2 (fun t' ht' => hpos t' (by simp [ht'])) hrec
    · rw [if_neg (fun hc => hav hc.2)]
      exact ih cur segs (fun t' ht' => hpos t' (by simp [ht'])) heq

theorem dictGet_isSome_iff_hasKey {α : Type} (m : List (String × α)) (k : String) :
    (dictGet m k).isSome = true ↔ dictHasKey m k = true := by
  unfold dictGet dictHasKey
  cases hfind : m.find? (fun p => p.1 == k) with
  | none =>
    have hforall := List.find?_eq_none.mp hfind
    simp only [Option.map_none', Option.isSome_none, Bool.false_eq_true, false_iff]
    intro h
    rcases List.any_eq_true.mp h with ⟨p, hp, hpk⟩
    exact hforall p hp hpk
  | some p =>
    simp only [Option.map_some', Option.isSome_some, true_iff]
    have hp := List.mem_of_find?_eq_some hfind
    have hpk := List.find?_some hfind
    exact List.any_eq_true.mpr ⟨p, hp, hpk⟩

theorem initFold_get_present (wd : List String) :
    ∀ (m : Sched) (d : String), dictHasKey m d →
      dictGet (wd.foldl (fun m d => if dictHasKey m d then m else dictSet m d []) m) d =
        dictGet m d := by
  induction wd with
  | nil => intro m d _; rfl
  | cons a rest ih =>
    intro m d hd
    rw [List.foldl_cons]
    by_cases h : dictHasKey m a = true
    · rw [if_pos h]
      exact ih m d hd
    · rw [if_neg h]
      have hda : a ≠ d := by
        intro hc
        rw [hc] at h
        exact h hd
      have hkeep : dictHasKey (dictSet m a []) d = true := by
        rw [← dictGet_isSome_iff_hasKey] at hd ⊢
        rw [dictGet_dictSet_ne m a d [] (fun hc => hda hc.symm)]
        exact hd
      rw [ih _ d hkeep, dictGet_dictSet_ne m a d [] (fun hc => hda hc.symm)]

theorem initFold_get_mem (wd : List String) :
    ∀ (m : Sched) (d : String), d ∈ wd →
      dictGet (wd.foldl (fun m d => if dictHasKey m d then m else dictSet m d []) m) d =
        some ((dictGet m d).getD []) := by
  induction wd with
  | nil => intro m d hd; cases hd
  | cons a rest ih =>
    intro m d hd
    rw [List.foldl_cons]
    by_cases hda : d = a
    · subst hda
      by_cases h : dictHasKey m d = true
      · rw [if_pos h]
        cases hget : dictGet m d with
        | none =>
          exfalso
          have := (dictGet_isSome_iff_hasKey m d).mpr h
          rw [hget] at this
          cases this
        | some v =>
          rw [initFold_get_present rest m d h, hget]
          rfl
      · rw [if_neg h]
        have hkey : dictHasKey (dictSet m d []) d = true := by
          rw [← dictGet_isSome_iff_hasKey, dictGet_dictSet_self]
          rfl
        rw [initFold_get_present rest _ d hkey, dictGet_dictSet_self,
          dictGet_eq_none_of_not_hasKey m d h]
        rfl
    · have hdr : d ∈ rest := by
        rcases List.mem_cons.mp hd with hc | hc
        · exact absurd hc hda
        · exact hc
      by_cases h : dictHasKey m a = true
      · rw [if_pos h]
        exact ih m d hdr
      · rw [if_neg h]
        rw [ih _ d hdr, dictGet_dictSet_ne m a d [] hda]

/-- C5 (amended): for each configured work day, a day whose proposed segments
do not exceed the cap is accepted unchanged, and a day whose proposed segments
exceed the cap is replaced by the code's redistribution pass over exactly the
input tasks proposed for that day, in input order, which never exceeds the
cap; when every such task has positive remaining hours the redistributed
segments coincide with the spec's deterministic packing step restricted to
that day — the difference forced by the counterexample is that a proposed task
with non-positive remaining hours yields an explicit zero-or-negative-hours
segment instead of being skipped. -/
theorem C5_per_day_repair (prop : Proposal) (tasks : List Task) (whpd : ℚ)
    (wd : List String) (hbd : HoursByDay) (res : ValidatedResult) (day : String)
    (hnd : wd.Nodup) (hday : day ∈ wd)
    (heq : validate_and_enhance_schedule prop tasks whpd wd hbd = some res) :
    (daySum prop.schedule day ≤ hbdGet hbd whpd day →
       dictGet res.schedule day = some ((dictGet prop.schedule day).getD [])) ∧
    (hbdGet hbd whpd day < daySum prop.schedule day →
       ∃ segs, repairPack (hbdGet hbd whpd day)
           (dayTasks tasks ((dictGet prop.schedule day).getD [])) 0 = some segs ∧
         dictGet res.schedule day = some segs ∧
         ((∀ t ∈ dayTasks tasks ((dictGet prop.schedule day).getD []),
             0 < t.remaining_hours) →
           segs.map (fun s => (s.task_key, s.allocated_hours)) =
             specRepairDay (hbdGet hbd whpd day)
               (dayTasks tasks ((dictGet prop.schedule day).getD [])) 0)) := by
  simp only [validate_and_enhance_schedule] at heq
  cases hfold : List.foldlM (validateDay tasks whpd hbd)
      (wd.foldl (fun m d => if dictHasKey m d then m else dictSet m d []) prop.schedule)
      wd with
  | none => rw [hfold] at heq; cases heq
  | some sched =>
    rw [hfold] at heq
    injection heq with heq
    have hres : res.schedule = sched := by rw [← heq]
    obtain ⟨l1, l2, hsplit⟩ := List.append_of_mem hday
    rw [hsplit] at hfold
    obtain ⟨mid, mid2, h1, h2, h3⟩ :=
      foldlM_validateDay_split tasks whpd hbd l1 day l2 _ sched hfold
    have hnd2 := hnd
    rw [hsplit] at hnd2
    have hmiddle := List.nodup_middle.mp hnd2
    have hnotin := (List.nodup_cons.mp hmiddle).1
    have hday1 : day ∉ l1 := fun hc => hnotin (by simp [hc])
    have hday2 : day ∉ l2 := fun hc => hnotin (by simp [hc])
    have hmid0 := foldlM_validateDay_frame tasks whpd hbd l1 _ mid h1 day hday1
    have hinit := initFold_get_mem wd prop.schedule day hday
    rw [hsplit] at hinit
    have hmidget : dictGet mid day = some ((dictGet prop.schedule day).getD []) := by
      rw [hmid0, hinit]
    have hmidsum : daySum mid day = daySum prop.schedule day := by
      unfold daySum
      rw [hmidget]
      rfl
    have hframe := foldlM_validateDay_frame tasks whpd hbd l2 mid2 sched h3 day hday2
    obtain ⟨haccept, hrepair⟩ := validateDay_characterize tasks whpd hbd mid day mid2 h2
    constructor
    · intro hle
      have hm2 := haccept (by rw [hmidsum]; exact hle)
      rw [hres, hframe, hm2, hmidget]
    · intro hlt
      obtain ⟨segs, hrep, hget⟩ := hrepair (by rw [hmidsum]; exact hlt)
      rw [hmidget] at hrep
      refine ⟨segs, ?_, ?_, ?_⟩
      · simpa using hrep
      · rw [hres, hframe]
        exact hget
      · intro hpos
        exact repairPack_spec_correspondence (hbdGet hbd whpd day) _ 0 segs hpos
          (by simpa using hrep)

/-- C5 counterexample: with a day over its cap and a proposed task of zero
remaining hours, the repaired day keeps an explicit zero-hour segment for that
task ([("Z", 0), ("T", 3)]) while re-running the spec's deterministic packing
step on the same tasks skips it ([("T", 3)]), so the repaired day is not the
output of the packing step as the claim states. -/
theorem C5_counterexample :
    ((validate_and_enhance_schedule
        { schedule := [("Monday",
            [{ task_key := "Z", task_summary := "z", allocated_hours := 2,
               priority := "Low", reason := "ai" },
             { task_key := "T", task_summary := "t", allocated_hours := 2,
               priority := "High", reason := "ai" }])],
          unassigned_tasks := [] }
        [{ key := "Z", summary := "z", priority := some "Low", due_date := some "",
           remaining_hours := 0 },
         { key := "T", summary := "t", priority := some "High", due_date := some "",
           remaining_hours := 5 }]
        8 ["Monday"] [("Monday", 3)]).map
      (fun r => ((dictGet r.schedule "Monday").getD []).map
        (fun s => (s.task_key, s.allocated_hours))) = some [("Z", 0), ("T", 3)]) ∧
    specRepairDay 3
      [{ key := "Z", summary := "z", priority := some "Low", due_date := some "",
         remaining_hours := 0 },
       { key := "T", summary := "t", priority := some "High", due_date := some "",
         remaining_hours := 5 }] 0 = [("T", 3)] ∧
    ¬ ([(("Z" : String), (0 : ℚ)), ("T", 3)] = [("T", 3)]) :=
  ⟨by decide, by decide, by decide⟩

theorem C5_witness :
    (["Monday"].Nodup ∧ "Monday" ∈ ["Monday"]) ∧
    ((daySum ([] : Sched) "Monday" ≤ hbdGet [("Monday", 8)] 8 "Monday" →
       dictGet [("Monday", ([] : List Segment))] "Monday" =
         some ((dictGet ([] : Sched) "Monday").getD [])) ∧
     (hbdGet [("Monday", 8)] 8 "Monday" < daySum ([] : Sched) "Monday" →
       ∃ segs, repairPack (hbdGet [("Monday", 8)] 8 "Monday")
           (dayTasks [] ((dictGet ([] : Sched) "Monday").getD [])) 0 = some segs ∧
         dictGet [("Monday", ([] : List Segment))] "Monday" = some segs ∧
         ((∀ t ∈ dayTasks [] ((dictGet ([] : Sched) "Monday").getD []),
             0 < t.remaining_hours) →
           segs.map (fun s => (s.task_key, s.allocated_hours)) =
             specRepairDay (hbdGet [("Monday", 8)] 8 "Monday")
               (dayTasks [] ((dictGet ([] : Sched) "Monday").getD [])) 0))) := by
  refine ⟨⟨by decide, by decide⟩, ?_⟩
  exact C5_per_day_repair { schedule := [], unassigned_tasks := [] } [] 8 ["Monday"]
    [("Monday", 8)]
    { schedule := [("Monday", [])], unassigned_tasks := [],
      total_allocated_hours := 0, utilization_percentage := 0 } "Monday"
    (by decide) (by decide) (by decide)

theorem allocatedToRes_append (plans : List CapacityPlan) (p : CapacityPlan) (j : Nat) :
    allocatedToRes (plans ++ [p]) j =
      allocatedToRes plans j + (if p.resource_index == j then p.planned_capacity else 0) := by
  unfold allocatedToRes
  rw [List.filter_append, List.map_append, List.sum_append]
  congr 1
  by_cases h : (p.resource_index == j) = true
  · simp [List.filter_cons, h]
  · simp [List.filter_cons, h]

theorem conservationInv_step (rs : List Resource) (st : AllocState) (i : Nat)
    (hi : i < rs.length) (pl : CapacityPlan) (hidx : pl.resource_index = i)
    (hinv : conservationInv rs st)
    (hle : pl.planned_capacity ≤ (rs.get ⟨i, hi⟩).capacity - allocatedToRes st.plans i) :
    conservationInv rs
      { avail := st.avail.set i (((st.avail.get? i).getD 0) - pl.planned_capacity),
        plans := st.plans ++ [pl] } := by
  obtain ⟨hlen, hinv2⟩ := hinv
  constructor
  · simpa [List.length_set] using hlen
  · intro j hj
    rw [allocatedToRes_append]
    by_cases hij : i = j
    · subst hij
      obtain ⟨hget, hnn⟩ := hinv2 i hi
      have hbeq : (pl.resource_index == i) = true := by simp [hidx]
      rw [hbeq, if_pos rfl]
      constructor
      · show (st.avail.set i _).get? i = _
        rw [List.get?_set_eq, hget]
        show some _ = some _
        rw [show ((some ((rs.get ⟨i, hj⟩).capacity - allocatedToRes st.plans i)).getD 0)
          = (rs.get ⟨i, hj⟩).capacity - allocatedToRes st.plans i from rfl]
        congr 1
        ring
      · linarith
    · obtain ⟨hget, hnn⟩ := hinv2 j hj
      have hbeq : (pl.resource_index == j) = false := by simp [hidx]; omega
      rw [hbeq]
      constructor
      · show (st.avail.set i _).get? j = _
        rw [List.get?_set_ne _ _ hij, hget]
        norm_num
      · simp only [Bool.false_eq_true, if_false, add_zero]
        exact hnn

theorem lbInner_inv (rs : List Resource) (pj : Project) :
    ∀ (fuel : Nat) (required : ℚ) (ridx : Nat) (st : AllocState)
      (b : Bool) (req2 : ℚ) (ridx2 : Nat) (st2 : AllocState),
      conservationInv rs st →
      lbInner rs pj fuel required ridx st = some (b, req2, ridx2, st2) →
      conservationInv rs st2 := by
  intro fuel
  induction fuel with
  | zero =>
    intro required ridx st b req2 ridx2 st2 hinv heq
    unfold lbInner at heq
    split_ifs at heq <;>
      (injection heq with h1
       injection h1 with h1 h2
       injection h2 with h2 h3
       injection h3 with h3 h4
       subst h4
       exact hinv)
  | succ n ih =>
    intro required ridx st b req2 ridx2 st2 hinv heq
    simp only [lbInner] at heq
    split_ifs at heq with hguard halloc
    · cases heff : calculate_efficiency_score (rs.get ⟨ridx, hguard.2⟩) pj
          (min required ((st.avail.get? ridx).getD 0)) with
      | none => rw [heff] at heq; cases heq
      | some eff =>
        rw [heff] at heq
        apply ih _ _ _ _ _ _ _ ?_ heq
        have hav : (st.avail.get? ridx).getD 0 =
            (rs.get ⟨ridx, hguard.2⟩).capacity - allocatedToRes st.plans ridx := by
          rw [(hinv.2 ridx hguard.2).1]
          rfl
        apply conservationInv_step rs st ridx hguard.2
          { resource_index := ridx, project_id := pj.pid,
            planned_capacity := min required ((st.avail.get? ridx).getD 0),
            utilization_rate := (min required ((st.avail.get? ridx).getD 0)) /
              (rs.get ⟨ridx, hguard.2⟩).capacity,
            efficiency_score := eff } rfl hinv
        show min required ((st.avail.get? ridx).getD 0) ≤ _
        rw [← hav]
        exact min_le_right _ _
    · exact ih _ _ _ _ _ _ _ hinv heq
    · injection heq with h1
      injection h1 with h1 h2
      injection h2 with h2 h3
      injection h3 with h3 h4
      subst h4
      exact hinv

theorem lbProjects_inv (rs : List Resource) :
    ∀ (pjs : List Project) (fuel : Nat) (ridx : Nat) (st : AllocState)
      (b : Bool) (ridx2 : Nat) (st2 : AllocState),
      conservationInv rs st →
      lbProjects rs fuel pjs ridx st = some (b, ridx2, st2) →
      conservationInv rs st2 := by
  intro pjs
  induction pjs with
  | nil =>
    intro fuel ridx st b ridx2 st2 hinv heq
    unfold lbProjects at heq
    injection heq with h1
    injection h1 with h1 h2
    injection h2 with h2 h3
    subst h3
    exact hinv
  | cons pj rest ih =>
    intro fuel ridx st b ridx2 st2 hinv heq
    unfold lbProjects at heq
    cases hrun : lbInner rs pj fuel pj.required_capacity ridx st with
    | none => rw [hrun] at heq; cases heq
    | some v =>
      obtain ⟨c, req2, ridxm, stm⟩ := v
      rw [hrun] at heq
      have hinvm := lbInner_inv rs pj fuel pj.required_capacity ridx st c req2 ridxm stm
        hinv hrun
      by_cases hc : c = true
      · rw [hc] at heq
        simp only [if_pos] at heq
        exact ih fuel ridxm stm b ridx2 st2 hinvm heq
      · rw [Bool.not_eq_true] at hc
        rw [hc] at heq
        simp only [Bool.false_eq_true, if_neg, if_false] at heq
        injection heq with h1
        injection h1 with h1 h2
        injection h2 with h2 h3
        subst h3
        exact hinvm

theorem pristine_inv (rs : List Resource) (hcap : ∀ r ∈ rs, 0 ≤ r.capacity) :
    conservationInv rs { avail := pristine rs, plans := [] } := by
  constructor
  · simp [pristine]
  · intro i hi
    constructor
    · show (rs.map (fun r => r.capacity)).get? i = _
      rw [List.get?_map, List.get?_eq_get hi]
      show some _ = some _
      congr 1
      show (rs.get ⟨i, hi⟩).capacity = (rs.get ⟨i, hi⟩).capacity - allocatedToRes [] i
      rw [show allocatedToRes [] i = 0 from rfl]
      ring
    · rw [show allocatedToRes [] i = 0 from rfl]
      have := hcap (rs.get ⟨i, hi⟩) (List.get_mem rs i hi)
      linarith

theorem coInner_inv (rs : List Resource) (pj : Project) :
    ∀ (l : List (Nat × Resource)) (remaining : ℚ) (st st2 : AllocState),
      (∀ q ∈ l, q.1 < rs.length) →
      conservationInv rs st →
      coInner pj l remaining st = some st2 →
      conservationInv rs st2 := by
  intro l
  induction l with
  | nil =>
    intro remaining st st2 _ hinv heq
    unfold coInner at heq
    injection heq with h
    subst h
    exact hinv
  | cons q rest ih =>
    intro remaining st st2 hmem hinv heq
    obtain ⟨i, r⟩ := q
    have hi : i < rs.length := hmem (i, r) (by simp)
    simp only [coInner] at heq
    split_ifs at heq with hdone hav
    · injection heq with h
      subst h
      exact hinv
    · cases heff : calculate_efficiency_score r pj
          (min remaining ((st.avail.get? i).getD 0)) with
      | none => rw [heff] at heq; cases heq
      | some eff =>
        rw [heff] at heq
        apply ih _ _ st2 (fun q hq => hmem q (by simp [hq])) ?_ heq
        have hav2 : (st.avail.get? i).getD 0 =
            (rs.get ⟨i, hi⟩).capacity - allocatedToRes st.plans i := by
          rw [(hinv.2 i hi).1]
          rfl
        apply conservationInv_step rs st i hi
          { resource_index := i, project_id := pj.pid,
            planned_capacity := min remaining ((st.avail.get? i).getD 0),
            utilization_rate := (min remaining ((st.avail.get? i).getD 0)) / r.capacity,
            efficiency_score := eff } rfl hinv
        show min remaining ((st.avail.get? i).getD 0) ≤ _
        rw [← hav2]
        exact min_le_right _ _
    · exact ih _ _ st2 (fun q hq => hmem q (by simp [hq])) hinv heq

theorem coProjects_inv (rs : List Resource) (sortedRs : List (Nat × Resource))
    (hmem : ∀ q ∈ sortedRs, q.1 < rs.length) :
    ∀ (pjs : List Project) (st st2 : AllocState),
      conservationInv rs st →
      coProjects sortedRs pjs st = some st2 →
      conservationInv rs st2 := by
  intro pjs
  induction pjs with
  | nil =>
    intro st st2 hinv heq
    unfold coProjects at heq
    injection heq with h
    subst h
    exact hinv
  | cons pj rest ih =>
    intro st st2 hinv heq
    unfold coProjects at heq
    cases hrun : coInner pj sortedRs pj.required_capacity st with
    | none => rw [hrun] at heq; cases heq
    | some stm =>
      rw [hrun] at heq
      exact ih stm st2 (coInner_inv rs pj sortedRs _ st stm hmem hinv hrun) heq

/-- C7: within a single strategy's run from the pristine snapshot (every
resource's availableCapacity equal to its non-negative capacity), for both the
load-balancing run (at every fuel bound, so at every point of the possibly
unbounded run) and the cost-optimization run, each resource's remaining
capacity equals capacity minus the total its plans drew from it, that value is
never negative, and the total drawn never exceeds the capacity. -/
theorem C7_conservation :
    (∀ (rs : List Resource) (pjs : List Project) (fuel : Nat) (res : LBResult),
       (∀ r ∈ rs, 0 ≤ r.capacity) →
       load_balancing_algorithm rs pjs (pristine rs) fuel = some res →
       ∀ i (hi : i < rs.length),
         res.avail.get? i =
           some ((rs.get ⟨i, hi⟩).capacity - allocatedToRes res.plans i) ∧
         0 ≤ (rs.get ⟨i, hi⟩).capacity - allocatedToRes res.plans i ∧
         allocatedToRes res.plans i ≤ (rs.get ⟨i, hi⟩).capacity) ∧
    (∀ (rs : List Resource) (pjs : List Project) (st2 : AllocState),
       (∀ r ∈ rs, 0 ≤ r.capacity) →
       cost_optimization_algorithm rs pjs (pristine rs) = some st2 →
       ∀ i (hi : i < rs.length),
         st2.avail.get? i =
           some ((rs.get ⟨i, hi⟩).capacity - allocatedToRes st2.plans i) ∧
         0 ≤ (rs.get ⟨i, hi⟩).capacity - allocatedToRes st2.plans i ∧
         allocatedToRes st2.plans i ≤ (rs.get ⟨i, hi⟩).capacity) := by
  constructor
  · intro rs pjs fuel res hcap heq i hi
    simp only [load_balancing_algorithm] at heq
    cases hrun : lbProjects rs fuel
        (if (pristine rs).sum < (pjs.map (fun p => p.required_capacity)).sum then
          List.insertionSort projectBefore pjs else pjs) 0
        { avail := pristine rs, plans := [] } with
    | none => rw [hrun] at heq; cases heq
    | some v =>
      obtain ⟨c, ridx2, st2⟩ := v
      rw [hrun] at heq
      injection heq with heq
      have hinv := lbProjects_inv rs _ fuel 0 _ c ridx2 st2 (pristine_inv rs hcap) hrun
      obtain ⟨hget, hnn⟩ := hinv.2 i hi
      have hav : res.avail = st2.avail := by rw [← heq]
      have hpl : res.plans = st2.plans := by rw [← heq]
      rw [hav, hpl]
      exact ⟨hget, hnn, by linarith⟩
  · intro rs pjs st2 hcap heq i hi
    unfold cost_optimization_algorithm at heq
    have hmem : ∀ q ∈ List.insertionSort costBefore rs.enum, q.1 < rs.length := by
      intro q hq
      have hq2 : q ∈ rs.enum := (List.perm_insertionSort costBefore rs.enum).mem_iff.mp hq
      obtain ⟨i0, a⟩ := q
      exact List.fst_lt_of_mem_enum hq2
    have hinv := coProjects_inv rs _ hmem pjs _ st2 (pristine_inv rs hcap) heq
    obtain ⟨hget, hnn⟩ := hinv.2 i hi
    exact ⟨hget, hnn, by linarith⟩

theorem C7_witness :
    ((∀ r ∈ [(⟨1, "human", 40, 10, []⟩ : Resource)], 0 ≤ r.capacity) ∧ (0 : Nat) < 1) ∧
    ((⟨[0], [⟨0, 1, 40, 1, 0.6⟩]⟩ : AllocState).avail.get? 0 =
       some (((([(⟨1, "human", 40, 10, []⟩ : Resource)]).get ⟨0, by norm_num⟩).capacity) -
         allocatedToRes [(⟨0, 1, 40, 1, 0.6⟩ : CapacityPlan)] 0) ∧
     0 ≤ ((([(⟨1, "human", 40, 10, []⟩ : Resource)]).get ⟨0, by norm_num⟩).capacity) -
         allocatedToRes [(⟨0, 1, 40, 1, 0.6⟩ : CapacityPlan)] 0 ∧
     allocatedToRes [(⟨0, 1, 40, 1, 0.6⟩ : CapacityPlan)] 0 ≤
       ((([(⟨1, "human", 40, 10, []⟩ : Resource)]).get ⟨0, by norm_num⟩).capacity)) := by
  refine ⟨⟨?_, by norm_num⟩, ?_⟩
  · intro r hr
    simp only [List.mem_singleton] at hr
    rw [hr]
    norm_num
  · exact C7_conservation.2 [⟨1, "human", 40, 10, []⟩] [⟨1, "high", 50, false⟩]
      ⟨[0], [⟨0, 1, 40, 1, 0.6⟩]⟩
      (by
        intro r hr
        simp only [List.mem_singleton] at hr
        rw [hr]
        norm_num)
      (by decide) 0 (by norm_num)

theorem lbInner_stuck :
    ∀ (fuel : Nat) (plans : List CapacityPlan),
      lbInner [(⟨1, "human", 5, 100, []⟩ : Resource)] (⟨1, "high", 10, false⟩ : Project)
        fuel 5 0 ⟨[0], plans⟩ =
      some (false, 5, 0, ⟨[0], plans⟩) := by
  intro fuel
  induction fuel with
  | zero =>
    intro plans
    rfl
  | succ n ih =>
    intro plans
    have hstep : lbInner [(⟨1, "human", 5, 100, []⟩ : Resource)]
        (⟨1, "high", 10, false⟩ : Project) (n + 1) 5 0 ⟨[0], plans⟩ =
        lbInner [(⟨1, "human", 5, 100, []⟩ : Resource)] (⟨1, "high", 10, false⟩ : Project)
          n 5 0 ⟨[0], plans⟩ := rfl
    rw [hstep]
    exact ih plans

/-- C1: the load-balancing inner while loop does not stop when every resource
is exhausted: with one resource of capacity 5 and one project requiring 10,
the run is still incomplete after every fuel bound, because the resource index
is updated modulo the resource count and therefore the guard
`resource_index < len(resources)` never becomes false — the algorithm (and
hence `generate_capacity_plan`, which calls it first) never terminates,
contradicting the claimed bound of resources times projects. -/
theorem C1_load_balancing_never_completes (fuel : Nat) :
    (load_balancing_algorithm [(⟨1, "human", 5, 100, []⟩ : Resource)]
        [(⟨1, "high", 10, false⟩ : Project)]
        (pristine [(⟨1, "human", 5, 100, []⟩ : Resource)]) fuel).map
      (fun r => r.completed) = some false := by
  cases fuel with
  | zero => rfl
  | succ n =>
    have hinner : lbInner [(⟨1, "human", 5, 100, []⟩ : Resource)]
        (⟨1, "high", 10, false⟩ : Project) (n + 1) 10 0 ⟨[5], []⟩ =
        some (false, 5, 0, ⟨[0], [⟨0, 1, 5, 1, 0.6⟩]⟩) := by
      have hstep : lbInner [(⟨1, "human", 5, 100, []⟩ : Resource)]
          (⟨1, "high", 10, false⟩ : Project) (n + 1) 10 0 ⟨[5], []⟩ =
          lbInner [(⟨1, "human", 5, 100, []⟩ : Resource)]
            (⟨1, "high", 10, false⟩ : Project) n 5 0 ⟨[0], [⟨0, 1, 5, 1, 0.6⟩]⟩ := rfl
      rw [hstep]
      exact lbInner_stuck n [⟨0, 1, 5, 1, 0.6⟩]
    have houter : load_balancing_algorithm [(⟨1, "human", 5, 100, []⟩ : Resource)]
        [(⟨1, "high", 10, false⟩ : Project)]
        (pristine [(⟨1, "human", 5, 100, []⟩ : Resource)]) (n + 1) =
        (match lbProjects [(⟨1, "human", 5, 100, []⟩ : Resource)] (n + 1)
            [(⟨1, "high", 10, false⟩ : Project)] 0 ⟨[5], []⟩ with
          | none => none
          | some (completed, _, st) =>
            some { completed := completed, avail := st.avail, plans := st.plans }) := rfl
    rw [houter]
    have hproj : lbProjects [(⟨1, "human", 5, 100, []⟩ : Resource)] (n + 1)
        [(⟨1, "high", 10, false⟩ : Project)] 0 ⟨[5], []⟩ =
        some (false, 0, ⟨[0], [⟨0, 1, 5, 1, 0.6⟩]⟩) := by
      unfold lbProjects
      rw [hinner]
      rfl
    rw [hproj]
    rfl

/-- C8: each of the six recommendation rules fires exactly when its numeric
condition holds on the summary (reading absent fields as 0 as the code does),
and the recommendation list is always emitted in the fixed rule order. -/
theorem C8_recommendation_rules (s : Option Summary) :
    ((recUtilLow ∈ generate_recommendations s ↔
        sgetQ s (fun v => v.capacity_utilization_rate) < 0.7) ∧
     (recUtilHigh ∈ generate_recommendations s ↔
        0.95 < sgetQ s (fun v => v.capacity_utilization_rate)) ∧
     (recSatisfaction ∈ generate_recommendations s ↔
        sgetQ s (fun v => v.requirement_satisfaction_rate) < 0.9) ∧
     (recEfficiency ∈ generate_recommendations s ↔
        sgetQ s (fun v => v.average_efficiency_score) < 0.6) ∧
     (recCost ∈ generate_recommendations s ↔ 1000000 < sgetQ s (fun v => v.total_cost)) ∧
     (recResources ∈ generate_recommendations s ↔
        sgetN s (fun v => v.number_of_resources) < sgetN s (fun v => v.number_of_projects))) ∧
    List.Sublist (generate_recommendations s)
      [recUtilLow, recUtilHigh, recSatisfaction, recEfficiency, recCost, recResources] := by
  have hne : recUtilLow ≠ recUtilHigh ∧ recUtilLow ≠ recSatisfaction ∧
      recUtilLow ≠ recEfficiency ∧ recUtilLow ≠ recCost ∧ recUtilLow ≠ recResources ∧
      recUtilHigh ≠ recSatisfaction ∧ recUtilHigh ≠ recEfficiency ∧ recUtilHigh ≠ recCost ∧
      recUtilHigh ≠ recResources ∧ recSatisfaction ≠ recEfficiency ∧
      recSatisfaction ≠ recCost ∧ recSatisfaction ≠ recResources ∧
      recEfficiency ≠ recCost ∧ recEfficiency ≠ recResources ∧ recCost ≠ recResources := by
    refine ⟨?_, ?_, ?_, ?_, ?_, ?_, ?_, ?_, ?_, ?_, ?_, ?_, ?_, ?_, ?_⟩ <;> decide
  obtain ⟨h12, h13, h14, h15, h16, h23, h24, h25, h26, h34, h35, h36, h45, h46, h56⟩ := hne
  have hmem : ∀ msg : String,
      msg ∈ generate_recommendations s ↔
        ((sgetQ s (fun v => v.capacity_utilization_rate) < 0.7 ∧ msg = recUtilLow) ∨
         (¬ sgetQ s (fun v => v.capacity_utilization_rate) < 0.7 ∧
            0.95 < sgetQ s (fun v => v.capacity_utilization_rate) ∧ msg = recUtilHigh) ∨
         (sgetQ s (fun v => v.requirement_satisfaction_rate) < 0.9 ∧ msg = recSatisfaction) ∨
         (sgetQ s (fun v => v.average_efficiency_score) < 0.6 ∧ msg = recEfficiency) ∨
         (1000000 < sgetQ s (fun v => v.total_cost) ∧ msg = recCost) ∨
         (sgetN s (fun v => v.number_of_resources) < sgetN s (fun v => v.number_of_projects) ∧
            msg = recResources)) := by
    intro msg
    unfold generate_recommendations
    split_ifs with c1 c2 c3 c4 c5 c6 <;> simp_all [-not_lt, -Nat.not_lt]
  constructor
  · refine ⟨?_, ?_, ?_, ?_, ?_, ?_⟩
    · rw [hmem]
      constructor
      · rintro (⟨hc, h⟩ | ⟨hn, hc, h⟩ | ⟨hc, h⟩ | ⟨hc, h⟩ | ⟨hc, h⟩ | ⟨hc, h⟩)
        · exact hc
        · exact absurd h h12
        · exact absurd h h13
        · exact absurd h h14
        · exact absurd h h15
        · exact absurd h h16
      · intro hc
        exact Or.inl ⟨hc, rfl⟩
    · rw [hmem]
      constructor
      · rintro (⟨hc, h⟩ | ⟨hn, hc, h⟩ | ⟨hc, h⟩ | ⟨hc, h⟩ | ⟨hc, h⟩ | ⟨hc, h⟩)
        · exact absurd h (Ne.symm h12)
        · exact hc
        · exact absurd h h23
        · exact absurd h h24
        · exact absurd h h25
        · exact absurd h h26
      · intro hc
        refine Or.inr (Or.inl ⟨?_, hc, rfl⟩)
        intro hlt
        linarith
    · rw [hmem]
      constructor
      · rintro (⟨hc, h⟩ | ⟨hn, hc, h⟩ | ⟨hc, h⟩ | ⟨hc, h⟩ | ⟨hc, h⟩ | ⟨hc, h⟩)
        · exact absurd h (Ne.symm h13)
        · exact absurd h (Ne.symm h23)
        · exact hc
        · exact absurd h h34
        · exact absurd h h35
        · exact absurd h h36
      · intro hc
        exact Or.inr (Or.inr (Or.inl ⟨hc, rfl⟩))
    · rw [hmem]
      constructor
      · rintro (⟨hc, h⟩ | ⟨hn, hc, h⟩ | ⟨hc, h⟩ | ⟨hc, h⟩ | ⟨hc, h⟩ | ⟨hc, h⟩)
        · exact absurd h (Ne.symm h14)
        · exact absurd h (Ne.symm h24)
        · exact absurd h (Ne.symm h34)
        · exact hc
        · exact absurd h h45
        · exact absurd h h46
      · intro hc
        exact Or.inr (Or.inr (Or.inr (Or.inl ⟨hc, rfl⟩)))
    · rw [hmem]
      constructor
      · rintro (⟨hc, h⟩ | ⟨hn, hc, h⟩ | ⟨hc, h⟩ | ⟨hc, h⟩ | ⟨hc, h⟩ | ⟨hc, h⟩)
        · exact absurd h (Ne.symm h15)
        · exact absurd h (Ne.symm h25)
        · exact absurd h (Ne.symm h35)
        · exact absurd h (Ne.symm h45)
        · exact hc
        · exact absurd h h56
      · intro hc
        exact Or.inr (Or.inr (Or.inr (Or.inr (Or.inl ⟨hc, rfl⟩))))
    · rw [hmem]
      constructor
      · rintro (⟨hc, h⟩ | ⟨hn, hc, h⟩ | ⟨hc, h⟩ | ⟨hc, h⟩ | ⟨hc, h⟩ | ⟨hc, h⟩)
        · exact absurd h (Ne.symm h16)
        · exact absurd h (Ne.symm h26)
        · exact absurd h (Ne.symm h36)
        · exact absurd h (Ne.symm h46)
        · exact absurd h (Ne.symm h56)
        · exact hc
      · intro hc
        exact Or.inr (Or.inr (Or.inr (Or.inr (Or.inr ⟨hc, rfl⟩))))
  · show List.Sublist (generate_recommendations s)
      (((([recUtilLow, recUtilHigh] ++ [recSatisfaction]) ++ [recEfficiency]) ++ [recCost]) ++
        [recResources])
    unfold generate_recommendations
    refine List.Sublist.append (List.Sublist.append (List.Sublist.append
      (List.Sublist.append ?_ ?_) ?_) ?_) ?_ <;> split_ifs <;> simp

/-- C9: for every resource with the data model's positive capacity, every
project and every candidate allocation, the computed efficiency score is
exactly 0.5 plus the three conditional bonuses, clamped to the interval
[0, 1]. -/
theorem C9_efficiency_score (r : Resource) (pj : Project) (allocation : ℚ)
    (hcap : 0 < r.capacity) :
    calculate_efficiency_score r pj allocation =
      some (max 0 (min 1
        (0.5 + (if r.rtype = "human" ∧ pj.human_in_requirements = true then 0.2 else 0)
             + (if "jira_user" ∈ r.skills then 0.1 else 0)
             + (if 0.8 < allocation / r.capacity then 0.1 else 0)))) := by
  have hb1 : ((r.rtype == "human" && pj.human_in_requirements) = true) ↔
      (r.rtype = "human" ∧ pj.human_in_requirements = true) := by
    simp
  have hb2 : (r.skills.contains "jira_user" = true) ↔ "jira_user" ∈ r.skills :=
    List.elem_iff
  simp only [calculate_efficiency_score]
  rw [if_neg (by intro hc; rw [hc] at hcap; exact lt_irrefl 0 hcap)]
  congr 1
  simp only [hb1, hb2]
  split_ifs with h1 h2 h3 <;> norm_num [min_def, max_def]

theorem C9_witness :
    0 < (⟨1, "human", 40, 10, ["jira_user"]⟩ : Resource).capacity ∧
    calculate_efficiency_score (⟨1, "human", 40, 10, ["jira_user"]⟩ : Resource)
      (⟨1, "high", 50, true⟩ : Project) 40 =
      some (max 0 (min 1
        (0.5 + (if (⟨1, "human", 40, 10, ["jira_user"]⟩ : Resource).rtype = "human" ∧
            (⟨1, "high", 50, true⟩ : Project).human_in_requirements = true then 0.2 else 0)
          + (if "jira_user" ∈ (⟨1, "human", 40, 10, ["jira_user"]⟩ : Resource).skills
              then 0.1 else 0)
          + (if 0.8 < (40 : ℚ) / (⟨1, "human", 40, 10, ["jira_user"]⟩ : Resource).capacity
              then 0.1 else 0)))) :=
  ⟨by norm_num, C9_efficiency_score ⟨1, "human", 40, 10, ["jira_user"]⟩ ⟨1, "high", 50, true⟩
    40 (by norm_num)⟩

end Proofs

end Spec2Proof
